import Mathlib

/-!
Verification of the LaTeX-to-Markdown rewrite pipeline
(`process_latex.py`: `process_latex_file` and `clean_math_content`).

The pipeline is an ordered list of regex substitutions applied to the whole
document text.  We embed it shallowly: a tiny pattern language (`Item`) covers
exactly the regex fragment the source uses (literal characters, character
classes under lazy star / greedy star / greedy plus, and an end-of-line
anchor), `matchP` is a backtracking matcher with Python `re` preference order
(lazy star tries the continuation first, greedy star tries consuming first),
and `substAux` is the `re.sub` driver: it scans left to right over the
original text, replaces each leftmost match and continues after it.
Multiline `^` is handled by the driver (`anc` flag plus beginning-of-line
tracking), multiline `$` by the `eol` item.  Fuel is used to keep all
functions structurally recursive; `matchRun`/`subst` supply sufficient fuel
(every matcher step shrinks `pat.length + s.length`, every driver step shrinks
the text).

Each `re.sub` line of the source becomes one named stage below, in source
order, and `processLatex` is their composition, ending with `str.strip()`
(`stripBoth`).  `cleanMath` embeds `clean_math_content`.
-/

set_option maxRecDepth 100000

namespace LatexMd

/-- Python `\s` / `str.strip` whitespace (ASCII set used by the source). -/
def isSpaceChar (c : Char) : Bool :=
  c == ' ' || c == '\t' || c == '\n' || c == '\r' || c == '\x0b' || c == '\x0c'

/-- Python `[a-zA-Z]`. -/
def isAsciiLetter (c : Char) : Bool :=
  ('a' ≤ c && c ≤ 'z') || ('A' ≤ c && c ≤ 'Z')

/-- Quantifiers occurring in the source's regexes. -/
inductive Quant
  | starLazy
  | starGreedy
  | plusGreedy

/-- One regex atom: a literal character, a character class with a quantifier
    (the `Bool` marks a capturing group), or the multiline `$` anchor. -/
inductive Item
  | lit : Char → Item
  | cls : (Char → Bool) → Quant → Bool → Item
  | eol : Item

/-- Backtracking matcher at one position.  Returns
    `(consumed text, captured group, remaining text)`.
    Preference order is Python's: lazy star tries the continuation first,
    greedy star/plus try consuming first.  `.` never matches a newline
    unless the class says so (DOTALL is the all-true class). -/
def matchP : Nat → List Item → List Char → Option (List Char × List Char × List Char)
  | 0, _, _ => none
  | _ + 1, [], s => some ([], [], s)
  | _ + 1, .lit _ :: _, [] => none
  | f + 1, .lit c :: ps, a :: s =>
      if a = c then (matchP f ps s).map (fun r => (a :: r.1, r.2.1, r.2.2)) else none
  | f + 1, .eol :: ps, s =>
      if s = [] ∨ s.head? = some '\n' then matchP f ps s else none
  | f + 1, .cls p q cap :: ps, s =>
      match q with
      | .starLazy =>
          match matchP f ps s with
          | some r => some r
          | none =>
              match s with
              | [] => none
              | a :: s' =>
                  if p a then
                    (matchP f (.cls p .starLazy cap :: ps) s').map
                      (fun r => (a :: r.1, if cap then a :: r.2.1 else r.2.1, r.2.2))
                  else none
      | .starGreedy =>
          match s with
          | [] => matchP f ps []
          | a :: s' =>
              if p a then
                match matchP f (.cls p .starGreedy cap :: ps) s' with
                | some r => some (a :: r.1, if cap then a :: r.2.1 else r.2.1, r.2.2)
                | none => matchP f ps (a :: s')
              else matchP f ps (a :: s')
      | .plusGreedy =>
          match s with
          | [] => none
          | a :: s' =>
              if p a then
                (matchP f (.cls p .starGreedy cap :: ps) s').map
                  (fun r => (a :: r.1, if cap then a :: r.2.1 else r.2.1, r.2.2))
              else none

/-- Every matcher step shrinks `pat.length + s.length`, so this fuel always
    suffices; `matchRun` is the fuel-independent entry point. -/
def matchRun (pat : List Item) (s : List Char) : Option (List Char × List Char × List Char) :=
  matchP (pat.length + s.length + 1) pat s

/-- Whether the last character of `xs` is a newline: after replacing a match,
    the next scan position is at beginning-of-line iff the consumed text ended
    with a newline (Python `^` looks at the original text before the position). -/
def lastIsNL (xs : List Char) : Bool :=
  match xs.getLast? with
  | some c => c == '\n'
  | none => false

/-- The `re.sub` driver: scan left to right, replace each leftmost
    non-overlapping match, continue after it.  `anc` is true for a pattern
    anchored with multiline `^`; `b` tracks beginning-of-line.  (No pattern of
    the source can match the empty string; the `con.isEmpty` branch is a
    defensive guard.) -/
def substAux (pat : List Item) (rep : List Char → List Char) (anc : Bool) :
    Nat → Bool → List Char → List Char
  | 0, _, s => s
  | _ + 1, _, [] => []
  | f + 1, b, c :: s =>
      if anc && !b then
        c :: substAux pat rep anc f (c == '\n') s
      else
        match matchRun pat (c :: s) with
        | some (con, cap, rest) =>
            if con.isEmpty then c :: substAux pat rep anc f (c == '\n') s
            else rep cap ++ substAux pat rep anc f (lastIsNL con) rest
        | none => c :: substAux pat rep anc f (c == '\n') s

/-- `re.sub(pattern, rep, s)` (with `rep` a function of the captured group). -/
def subst (pat : List Item) (rep : List Char → List Char) (anc : Bool) (s : List Char) :
    List Char :=
  substAux pat rep anc (s.length + 1) true s

/-- `str.strip()`. -/
def stripBoth (s : List Char) : List Char :=
  ((s.dropWhile isSpaceChar).reverse.dropWhile isSpaceChar).reverse

/-- Literal regex text. -/
def lits (cs : List Char) : List Item := cs.map Item.lit

/-- `.` (no DOTALL): any character but newline. -/
def isDotChar (c : Char) : Bool := c != '\n'

/-- `.*?` -/
def dotLazy : Item := .cls isDotChar .starLazy false

/-- `(.*?)` -/
def dotLazyCap : Item := .cls isDotChar .starLazy true

/-- `.*` (greedy, in `%.*$`) -/
def dotGreedy : Item := .cls isDotChar .starGreedy false

/-- `.*?` under DOTALL. -/
def anyLazy : Item := .cls (fun _ => true) .starLazy false

/-- `\s*` -/
def wsStar : Item := .cls isSpaceChar .starGreedy false

/-- `\s+` -/
def wsPlus : Item := .cls isSpaceChar .plusGreedy false

/-- `[a-zA-Z]+` -/
def alphaPlus : Item := .cls isAsciiLetter .plusGreedy false

/-- `([^}]*)` (greedy, capturing) -/
def nonBraceCap : Item := .cls (fun c => c != '}') .starGreedy true

/-- `([^$]*?)` (lazy, capturing) -/
def nonDollarLazyCap : Item := .cls (fun c => c != '$') .starLazy true

/-- Replacement that deletes the match (`''`). -/
def erase : List Char → List Char := fun _ => []

/-- Replacement `r'\1'`. -/
def keepGroup : List Char → List Char := fun g => g

-- The patterns, one per `re.sub` call of `process_latex_file`, in source order.

def docclassPat : List Item :=
  lits ['\\','d','o','c','u','m','e','n','t','c','l','a','s','s','['] ++ [dotLazy] ++
    lits [']','{'] ++ [dotLazy] ++ [.lit '}']

def beginDocPat : List Item :=
  lits ['\\','b','e','g','i','n','{','d','o','c','u','m','e','n','t','}']

def endDocPat : List Item :=
  lits ['\\','e','n','d','{','d','o','c','u','m','e','n','t','}']

def commentPat : List Item := [.lit '%', dotGreedy, .eol]

def myCoverPat : List Item :=
  lits ['\\','m','y','C','o','v','e','r','{'] ++ [dotLazy] ++ [.lit '}']

def myChapterCoverPat : List Item :=
  lits ['\\','m','y','C','h','a','p','t','e','r','C','o','v','e','r','{','}']

def newpagePat : List Item := lits ['\\','n','e','w','p','a','g','e']

def sectionLabelPat : List Item :=
  lits ['\\','s','e','c','t','i','o','n','{'] ++ [dotLazyCap] ++ [.lit '}'] ++ [wsStar] ++
    lits ['\\','l','a','b','e','l','{'] ++ [dotLazy] ++ [.lit '}']

def sectionPat : List Item :=
  lits ['\\','s','e','c','t','i','o','n','{'] ++ [dotLazyCap] ++ [.lit '}']

def subsectionLabelPat : List Item :=
  lits ['\\','s','u','b','s','e','c','t','i','o','n','{'] ++ [dotLazyCap] ++ [.lit '}'] ++
    [wsStar] ++ lits ['\\','l','a','b','e','l','{'] ++ [dotLazy] ++ [.lit '}']

def subsectionPat : List Item :=
  lits ['\\','s','u','b','s','e','c','t','i','o','n','{'] ++ [dotLazyCap] ++ [.lit '}']

def subsubsectionLabelPat : List Item :=
  lits ['\\','s','u','b','s','u','b','s','e','c','t','i','o','n','{'] ++ [dotLazyCap] ++
    [.lit '}'] ++ [wsStar] ++ lits ['\\','l','a','b','e','l','{'] ++ [dotLazy] ++ [.lit '}']

def subsubsectionPat : List Item :=
  lits ['\\','s','u','b','s','u','b','s','e','c','t','i','o','n','{'] ++ [dotLazyCap] ++
    [.lit '}']

def labelPat : List Item :=
  lits ['\\','l','a','b','e','l','{'] ++ [dotLazy] ++ [.lit '}']

def citePat : List Item :=
  lits ['\\','c','i','t','e','{'] ++ [dotLazy] ++ [.lit '}']

def tildeCitePat : List Item :=
  lits ['~','\\','c','i','t','e','{'] ++ [dotLazy] ++ [.lit '}']

def crefCapPat : List Item :=
  lits ['\\','C','r','e','f','{'] ++ [dotLazy] ++ [.lit '}']

def crefPat : List Item :=
  lits ['\\','c','r','e','f','{'] ++ [dotLazy] ++ [.lit '}']

/-- `\begin{equation}` -/
def eqBegin : List Char :=
  ['\\','b','e','g','i','n','{','e','q','u','a','t','i','o','n','}']

/-- `\end{equation}` -/
def eqEnd : List Char :=
  ['\\','e','n','d','{','e','q','u','a','t','i','o','n','}']

def alignBegin : List Char := ['\\','b','e','g','i','n','{','a','l','i','g','n','}']

def alignEnd : List Char := ['\\','e','n','d','{','a','l','i','g','n','}']

def splitBegin : List Char := ['\\','b','e','g','i','n','{','s','p','l','i','t','}']

def splitEnd : List Char := ['\\','e','n','d','{','s','p','l','i','t','}']

/-- `\begin{...}.*?\end{...}` under DOTALL, as used for the three block-math
    environments and the figure/table environments. -/
def envPat (b e : List Char) : List Item := lits b ++ [anyLazy] ++ lits e

/-- `<EQN HERE>` -/
def eqnPlaceholder : List Char := ['<','E','Q','N',' ','H','E','R','E','>']

def inlineMathPat : List Item := [.lit '$', nonDollarLazyCap, .lit '$']

def textitPat : List Item :=
  lits ['\\','t','e','x','t','i','t','{'] ++ [nonBraceCap] ++ [.lit '}']

def textbfPat : List Item :=
  lits ['\\','t','e','x','t','b','f','{'] ++ [nonBraceCap] ++ [.lit '}']

def textPat : List Item :=
  lits ['\\','t','e','x','t','{'] ++ [nonBraceCap] ++ [.lit '}']

def figureBegin : List Char := ['\\','b','e','g','i','n','{','f','i','g','u','r','e','}']

def figureEnd : List Char := ['\\','e','n','d','{','f','i','g','u','r','e','}']

def tableBegin : List Char := ['\\','b','e','g','i','n','{','t','a','b','l','e','}']

def tableEnd : List Char := ['\\','e','n','d','{','t','a','b','l','e','}']

def tabularyBegin : List Char :=
  ['\\','b','e','g','i','n','{','t','a','b','u','l','a','r','y','}']

def tabularyEnd : List Char := ['\\','e','n','d','{','t','a','b','u','l','a','r','y','}']

def centeringPat : List Item := lits ['\\','c','e','n','t','e','r','i','n','g']

def includegraphicsPat : List Item :=
  lits ['\\','i','n','c','l','u','d','e','g','r','a','p','h','i','c','s','['] ++ [dotLazy] ++
    lits [']','{'] ++ [dotLazy] ++ [.lit '}']

def captionPat : List Item :=
  lits ['\\','c','a','p','t','i','o','n','{'] ++ [dotLazy] ++ [.lit '}']

def toprulePat : List Item := lits ['\\','t','o','p','r','u','l','e']

def midrulePat : List Item := lits ['\\','m','i','d','r','u','l','e']

def bottomrulePat : List Item := lits ['\\','b','o','t','t','o','m','r','u','l','e']

def tensorPat : List Item :=
  lits ['\\','t','e','n','s','o','r','['] ++ [dotLazy] ++ lits [']','{'] ++ [dotLazy] ++
    lits ['}','{'] ++ [dotLazy] ++ [.lit '}']

def mathbfPat : List Item :=
  lits ['\\','m','a','t','h','b','f','{'] ++ [nonBraceCap] ++ [.lit '}']

def vecPat : List Item :=
  lits ['\\','v','e','c','{'] ++ [nonBraceCap] ++ [.lit '}']

/-- `\n\s*\n\s*\n` -/
def blankLinesPat : List Item := [.lit '\n', wsStar, .lit '\n', wsStar, .lit '\n']

/-- `^\s+` (the `^` is handled by the driver's `anc` flag). -/
def leadingWsPat : List Item := [wsPlus]

/-- `\s+$` -/
def trailingWsPat : List Item := [wsPlus, .eol]

def catchBracePat : List Item := [.lit '\\', alphaPlus, .lit '{', dotLazy, .lit '}']

def catchBarePat : List Item := [.lit '\\', alphaPlus]

-- The patterns of `clean_math_content`.

/-- `\\[a-zA-Z]+\{([^}]*)\}` -/
def mathCmdArgPat : List Item :=
  [.lit '\\', alphaPlus, .lit '{', nonBraceCap, .lit '}']

def leftPat : List Item := lits ['\\','l','e','f','t']

def rightPat : List Item := lits ['\\','r','i','g','h','t']

/-- `clean_math_content`: strip commands inside an inline math span, in the
    source's order, then `strip()`. -/
def cleanMath (m : List Char) : List Char :=
  let m := subst mathCmdArgPat keepGroup false m
  let m := subst catchBarePat erase false m
  let m := subst leftPat erase false m
  let m := subst rightPat erase false m
  let m := subst textPat keepGroup false m
  stripBoth m

-- One named stage per `re.sub` line of `process_latex_file`, in source order.

def docclassSub (s : List Char) : List Char := subst docclassPat erase false s

def beginDocSub (s : List Char) : List Char := subst beginDocPat erase false s

def endDocSub (s : List Char) : List Char := subst endDocPat erase false s

def commentSub (s : List Char) : List Char := subst commentPat erase false s

def myCoverSub (s : List Char) : List Char := subst myCoverPat erase false s

def myChapterCoverSub (s : List Char) : List Char := subst myChapterCoverPat erase false s

def newpageSub (s : List Char) : List Char := subst newpagePat erase false s

def sectionLabelSub (s : List Char) : List Char :=
  subst sectionLabelPat (fun g => '#' :: ' ' :: g) false s

def sectionSub (s : List Char) : List Char :=
  subst sectionPat (fun g => '#' :: ' ' :: g) false s

def subsectionLabelSub (s : List Char) : List Char :=
  subst subsectionLabelPat (fun g => '#' :: '#' :: ' ' :: g) false s

def subsectionSub (s : List Char) : List Char :=
  subst subsectionPat (fun g => '#' :: '#' :: ' ' :: g) false s

def subsubsectionLabelSub (s : List Char) : List Char :=
  subst subsubsectionLabelPat (fun g => '#' :: '#' :: '#' :: ' ' :: g) false s

def subsubsectionSub (s : List Char) : List Char :=
  subst subsubsectionPat (fun g => '#' :: '#' :: '#' :: ' ' :: g) false s

def labelSub (s : List Char) : List Char := subst labelPat erase false s

def citeSub (s : List Char) : List Char := subst citePat erase false s

def tildeCiteSub (s : List Char) : List Char := subst tildeCitePat erase false s

def crefCapSub (s : List Char) : List Char := subst crefCapPat erase false s

def crefSub (s : List Char) : List Char := subst crefPat erase false s

def equationSub (s : List Char) : List Char :=
  subst (envPat eqBegin eqEnd) (fun _ => eqnPlaceholder) false s

def alignSub (s : List Char) : List Char :=
  subst (envPat alignBegin alignEnd) (fun _ => eqnPlaceholder) false s

def splitSub (s : List Char) : List Char :=
  subst (envPat splitBegin splitEnd) (fun _ => eqnPlaceholder) false s

def inlineMathSub (s : List Char) : List Char :=
  subst inlineMathPat (fun g => '$' :: (cleanMath g ++ ['$'])) false s

def textitSub (s : List Char) : List Char := subst textitPat keepGroup false s

def textbfSub (s : List Char) : List Char := subst textbfPat keepGroup false s

def textSub (s : List Char) : List Char := subst textPat keepGroup false s

def figureSub (s : List Char) : List Char :=
  subst (envPat figureBegin figureEnd) erase false s

def tableSub (s : List Char) : List Char :=
  subst (envPat tableBegin tableEnd) erase false s

def tabularySub (s : List Char) : List Char :=
  subst (envPat tabularyBegin tabularyEnd) erase false s

def centeringSub (s : List Char) : List Char := subst centeringPat erase false s

def includegraphicsSub (s : List Char) : List Char :=
  subst includegraphicsPat erase false s

def captionSub (s : List Char) : List Char := subst captionPat erase false s

def topruleSub (s : List Char) : List Char := subst toprulePat erase false s

def midruleSub (s : List Char) : List Char := subst midrulePat erase false s

def bottomruleSub (s : List Char) : List Char := subst bottomrulePat erase false s

def tensorSub (s : List Char) : List Char := subst tensorPat erase false s

def mathbfSub (s : List Char) : List Char := subst mathbfPat keepGroup false s

def vecSub (s : List Char) : List Char := subst vecPat keepGroup false s

def blankLinesSub (s : List Char) : List Char :=
  subst blankLinesPat (fun _ => ['\n','\n']) false s

def leadingWsSub (s : List Char) : List Char := subst leadingWsPat erase true s

def trailingWsSub (s : List Char) : List Char := subst trailingWsPat erase false s

def catchBraceSub (s : List Char) : List Char := subst catchBracePat erase false s

def catchBareSub (s : List Char) : List Char := subst catchBarePat erase false s

/-- The whole conversion `process_latex_file` performs on the text of one
    document (the file I/O around it is out of scope). -/
def processLatex (content : List Char) : List Char :=
  let c := docclassSub content
  let c := beginDocSub c
  let c := endDocSub c
  let c := commentSub c
  let c := myCoverSub c
  let c := myChapterCoverSub c
  let c := newpageSub c
  let c := sectionLabelSub c
  let c := sectionSub c
  let c := subsectionLabelSub c
  let c := subsectionSub c
  let c := subsubsectionLabelSub c
  let c := subsubsectionSub c
  let c := labelSub c
  let c := citeSub c
  let c := tildeCiteSub c
  let c := crefCapSub c
  let c := crefSub c
  let c := equationSub c
  let c := alignSub c
  let c := splitSub c
  let c := inlineMathSub c
  let c := textitSub c
  let c := textbfSub c
  let c := textSub c
  let c := figureSub c
  let c := tableSub c
  let c := tabularySub c
  let c := centeringSub c
  let c := includegraphicsSub c
  let c := captionSub c
  let c := topruleSub c
  let c := midruleSub c
  let c := bottomruleSub c
  let c := tensorSub c
  let c := mathbfSub c
  let c := vecSub c
  let c := blankLinesSub c
  let c := leadingWsSub c
  let c := trailingWsSub c
  let c := catchBraceSub c
  let c := catchBareSub c
  stripBoth c

/-! ### Matcher infrastructure -/

/-- Boolean prefix test on character lists. -/
def isPfx : List Char → List Char → Bool
  | [], _ => true
  | _ :: _, [] => false
  | a :: xs, b :: ys => a == b && isPfx xs ys

theorem matchP_zero (pat : List Item) (s : List Char) : matchP 0 pat s = none := rfl

theorem matchP_nilpat (f : Nat) (s : List Char) :
    matchP (f + 1) [] s = some ([], [], s) := rfl

theorem matchP_lit_nil (f : Nat) (c : Char) (ps : List Item) :
    matchP (f + 1) (.lit c :: ps) [] = none := rfl

theorem matchP_lit_cons (f : Nat) (c : Char) (ps : List Item) (a : Char) (s : List Char) :
    matchP (f + 1) (.lit c :: ps) (a :: s) =
      if a = c then (matchP f ps s).map (fun r => (a :: r.1, r.2.1, r.2.2)) else none := rfl

theorem matchP_eol (f : Nat) (ps : List Item) (s : List Char) :
    matchP (f + 1) (.eol :: ps) s =
      if s = [] ∨ s.head? = some '\n' then matchP f ps s else none := rfl

theorem matchP_lazy (f : Nat) (p : Char → Bool) (cap : Bool) (ps : List Item)
    (s : List Char) :
    matchP (f + 1) (.cls p .starLazy cap :: ps) s =
      (match matchP f ps s with
       | some r => some r
       | none =>
           match s with
           | [] => none
           | a :: s' =>
               if p a then
                 (matchP f (.cls p .starLazy cap :: ps) s').map
                   (fun r => (a :: r.1, if cap then a :: r.2.1 else r.2.1, r.2.2))
               else none) := rfl

theorem matchP_greedy_nil (f : Nat) (p : Char → Bool) (cap : Bool) (ps : List Item) :
    matchP (f + 1) (.cls p .starGreedy cap :: ps) [] = matchP f ps [] := rfl

theorem matchP_greedy_cons (f : Nat) (p : Char → Bool) (cap : Bool) (ps : List Item)
    (a : Char) (s' : List Char) :
    matchP (f + 1) (.cls p .starGreedy cap :: ps) (a :: s') =
      (if p a then
        match matchP f (.cls p .starGreedy cap :: ps) s' with
        | some r => some (a :: r.1, if cap then a :: r.2.1 else r.2.1, r.2.2)
        | none => matchP f ps (a :: s')
      else matchP f ps (a :: s')) := rfl

theorem matchP_plus_nil (f : Nat) (p : Char → Bool) (cap : Bool) (ps : List Item) :
    matchP (f + 1) (.cls p .plusGreedy cap :: ps) [] = none := rfl

theorem matchP_plus_cons (f : Nat) (p : Char → Bool) (cap : Bool) (ps : List Item)
    (a : Char) (s' : List Char) :
    matchP (f + 1) (.cls p .plusGreedy cap :: ps) (a :: s') =
      (if p a then
        (matchP f (.cls p .starGreedy cap :: ps) s').map
          (fun r => (a :: r.1, if cap then a :: r.2.1 else r.2.1, r.2.2))
      else none) := rfl

theorem matchP_lazy_stop {f : Nat} {p : Char → Bool} {cap : Bool} {ps : List Item}
    {s : List Char} {r : List Char × List Char × List Char} (h : matchP f ps s = some r) :
    matchP (f + 1) (.cls p .starLazy cap :: ps) s = some r := by
  rw [matchP_lazy, h]

theorem matchP_lazy_none_nil {f : Nat} {p : Char → Bool} {cap : Bool} {ps : List Item}
    (h : matchP f ps [] = none) :
    matchP (f + 1) (.cls p .starLazy cap :: ps) [] = none := by
  rw [matchP_lazy, h]

theorem matchP_lazy_none_cons {f : Nat} {p : Char → Bool} {cap : Bool} {ps : List Item}
    {a : Char} {s' : List Char} (h : matchP f ps (a :: s') = none) :
    matchP (f + 1) (.cls p .starLazy cap :: ps) (a :: s') =
      (if p a then
        (matchP f (.cls p .starLazy cap :: ps) s').map
          (fun r => (a :: r.1, if cap then a :: r.2.1 else r.2.1, r.2.2))
      else none) := by
  rw [matchP_lazy, h]

theorem matchP_greedy_cons_pos {f : Nat} {p : Char → Bool} {cap : Bool} {ps : List Item}
    {a : Char} {s' : List Char} {r : List Char × List Char × List Char}
    (hpa : p a = true) (h : matchP f (.cls p .starGreedy cap :: ps) s' = some r) :
    matchP (f + 1) (.cls p .starGreedy cap :: ps) (a :: s') =
      some (a :: r.1, if cap then a :: r.2.1 else r.2.1, r.2.2) := by
  rw [matchP_greedy_cons, if_pos hpa, h]

theorem matchP_greedy_cons_back {f : Nat} {p : Char → Bool} {cap : Bool} {ps : List Item}
    {a : Char} {s' : List Char}
    (hpa : p a = true) (h : matchP f (.cls p .starGreedy cap :: ps) s' = none) :
    matchP (f + 1) (.cls p .starGreedy cap :: ps) (a :: s') = matchP f ps (a :: s') := by
  rw [matchP_greedy_cons, if_pos hpa, h]

theorem matchP_greedy_cons_stop {f : Nat} {p : Char → Bool} {cap : Bool} {ps : List Item}
    {a : Char} {s' : List Char} (hpa : p a = false) :
    matchP (f + 1) (.cls p .starGreedy cap :: ps) (a :: s') = matchP f ps (a :: s') := by
  rw [matchP_greedy_cons, if_neg (by simp [hpa])]

/-- A successful match consumes a prefix of the input: `con ++ rest = s`. -/
theorem matchP_consumed : ∀ (f : Nat) (pat : List Item) (s con cap rest : List Char),
    matchP f pat s = some (con, cap, rest) → con ++ rest = s := by
  intro f
  induction f with
  | zero => intro pat s con cap rest h; simp [matchP_zero] at h
  | succ f ih =>
    intro pat s con cap rest h
    cases pat with
    | nil =>
      rw [matchP_nilpat] at h
      simp at h
      simp [h.1, h.2.2]
    | cons it ps =>
      cases it with
      | lit c =>
        cases s with
        | nil => rw [matchP_lit_nil] at h; simp at h
        | cons a s =>
          rw [matchP_lit_cons] at h
          by_cases hac : a = c
          · rw [if_pos hac] at h
            cases hm : matchP f ps s with
            | none => rw [hm] at h; simp at h
            | some r =>
              obtain ⟨rc, rcap, rr⟩ := r
              rw [hm] at h
              simp at h
              obtain ⟨h1, _, h3⟩ := h
              have := ih ps s rc rcap rr hm
              rw [← h1, ← h3]
              simp [this]
          · simp [if_neg hac] at h
      | eol =>
        rw [matchP_eol] at h
        by_cases hc : s = [] ∨ s.head? = some '\n'
        · rw [if_pos hc] at h; exact ih ps s con cap rest h
        · rw [if_neg hc] at h; simp at h
      | cls p q cap' =>
        cases q with
        | starLazy =>
          cases hm : matchP f ps s with
          | some r =>
            rw [matchP_lazy_stop hm] at h
            have hr := Option.some.inj h
            rw [hr] at hm
            exact ih ps s con cap rest hm
          | none =>
            cases s with
            | nil => rw [matchP_lazy_none_nil hm] at h; simp at h
            | cons a s' =>
              rw [matchP_lazy_none_cons hm] at h
              by_cases hpa : p a
              · rw [if_pos hpa] at h
                cases hm2 : matchP f (.cls p .starLazy cap' :: ps) s' with
                | none => rw [hm2] at h; simp at h
                | some r =>
                  obtain ⟨rc, rcap, rr⟩ := r
                  rw [hm2] at h
                  simp at h
                  obtain ⟨h1, _, h3⟩ := h
                  have := ih _ s' rc rcap rr hm2
                  rw [← h1, ← h3]
                  simp [this]
              · simp [if_neg hpa] at h
        | starGreedy =>
          cases s with
          | nil =>
            rw [matchP_greedy_nil] at h
            exact ih ps [] con cap rest h
          | cons a s' =>
            by_cases hpa : p a
            · cases hm2 : matchP f (.cls p .starGreedy cap' :: ps) s' with
              | none =>
                rw [matchP_greedy_cons_back hpa hm2] at h
                exact ih ps (a :: s') con cap rest h
              | some r =>
                obtain ⟨rc, rcap, rr⟩ := r
                rw [matchP_greedy_cons_pos hpa hm2] at h
                simp at h
                obtain ⟨h1, _, h3⟩ := h
                have := ih _ s' rc rcap rr hm2
                rw [← h1, ← h3]
                simp [this]
            · rw [matchP_greedy_cons_stop (by simpa using hpa)] at h
              exact ih ps (a :: s') con cap rest h
        | plusGreedy =>
          cases s with
          | nil => rw [matchP_plus_nil] at h; simp at h
          | cons a s' =>
            rw [matchP_plus_cons] at h
            by_cases hpa : p a
            · rw [if_pos hpa] at h
              cases hm2 : matchP f (.cls p .starGreedy cap' :: ps) s' with
              | none => rw [hm2] at h; simp at h
              | some r =>
                obtain ⟨rc, rcap, rr⟩ := r
                rw [hm2] at h
                simp at h
                obtain ⟨h1, _, h3⟩ := h
                have := ih _ s' rc rcap rr hm2
                rw [← h1, ← h3]
                simp [this]
            · simp [if_neg hpa] at h

/-- The matcher's result does not depend on the fuel, once the fuel exceeds
    `pat.length + s.length` (every step shrinks that sum). -/
theorem matchP_inv : ∀ (f g : Nat) (pat : List Item) (s : List Char),
    pat.length + s.length < f → pat.length + s.length < g →
    matchP f pat s = matchP g pat s := by
  intro f
  induction f with
  | zero => intro g pat s hf _; exact absurd hf (Nat.not_lt_zero _)
  | succ f ih =>
    intro g pat s hf hg
    cases g with
    | zero => exact absurd hg (Nat.not_lt_zero _)
    | succ g =>
      cases pat with
      | nil => rw [matchP_nilpat, matchP_nilpat]
      | cons it ps =>
        cases it with
        | lit c =>
          cases s with
          | nil => rw [matchP_lit_nil, matchP_lit_nil]
          | cons a s =>
            rw [matchP_lit_cons, matchP_lit_cons]
            rw [ih g ps s (by simp at hf ⊢; omega) (by simp at hg ⊢; omega)]
        | eol =>
          rw [matchP_eol, matchP_eol]
          rw [ih g ps s (by simp at hf ⊢; omega) (by simp at hg ⊢; omega)]
        | cls p q cap =>
          cases q with
          | starLazy =>
            have hstop := ih g ps s (by simp at hf ⊢; omega) (by simp at hg ⊢; omega)
            cases hm : matchP g ps s with
            | some r => rw [matchP_lazy_stop (hstop.trans hm), matchP_lazy_stop hm]
            | none =>
              cases s with
              | nil => rw [matchP_lazy_none_nil (hstop.trans hm), matchP_lazy_none_nil hm]
              | cons a s' =>
                rw [matchP_lazy_none_cons (hstop.trans hm), matchP_lazy_none_cons hm]
                rw [ih g (.cls p .starLazy cap :: ps) s'
                  (by simp at hf ⊢; omega) (by simp at hg ⊢; omega)]
          | starGreedy =>
            cases s with
            | nil =>
              rw [matchP_greedy_nil, matchP_greedy_nil]
              rw [ih g ps [] (by simp at hf ⊢; omega) (by simp at hg ⊢; omega)]
            | cons a s' =>
              have hin := ih g (.cls p .starGreedy cap :: ps) s'
                (by simp at hf ⊢; omega) (by simp at hg ⊢; omega)
              by_cases hpa : p a
              · cases hm : matchP g (.cls p .starGreedy cap :: ps) s' with
                | some r =>
                  rw [matchP_greedy_cons_pos hpa (hin.trans hm), matchP_greedy_cons_pos hpa hm]
                | none =>
                  rw [matchP_greedy_cons_back hpa (hin.trans hm),
                    matchP_greedy_cons_back hpa hm]
                  exact ih g ps (a :: s') (by simp at hf ⊢; omega) (by simp at hg ⊢; omega)
              · rw [matchP_greedy_cons_stop (by simpa using hpa),
                  matchP_greedy_cons_stop (by simpa using hpa)]
                exact ih g ps (a :: s') (by simp at hf ⊢; omega) (by simp at hg ⊢; omega)
          | plusGreedy =>
            cases s with
            | nil => rw [matchP_plus_nil, matchP_plus_nil]
            | cons a s' =>
              rw [matchP_plus_cons, matchP_plus_cons]
              rw [ih g (.cls p .starGreedy cap :: ps) s'
                (by simp at hf ⊢; omega) (by simp at hg ⊢; omega)]

/-- Any sufficient fuel computes `matchRun`. -/
theorem matchRun_eq (f : Nat) (pat : List Item) (s : List Char)
    (h : pat.length + s.length < f) : matchP f pat s = matchRun pat s :=
  matchP_inv f (pat.length + s.length + 1) pat s h (Nat.lt_succ_self _)

theorem matchRun_consumed {pat : List Item} {s con cap rest : List Char}
    (h : matchRun pat s = some (con, cap, rest)) : con ++ rest = s :=
  matchP_consumed _ pat s con cap rest h

-- Fuel-free unfolding equations for `matchRun`.

theorem matchRun_nilpat (s : List Char) : matchRun [] s = some ([], [], s) := by
  rw [matchRun, show ([] : List Item).length + s.length + 1 = s.length + 1 by simp]
  exact matchP_nilpat s.length s

theorem matchRun_lit_nil (c : Char) (ps : List Item) : matchRun (.lit c :: ps) [] = none := by
  rw [matchRun, show (Item.lit c :: ps).length + ([] : List Char).length + 1
      = (ps.length + 1) + 1 by simp]
  exact matchP_lit_nil _ c ps

theorem matchRun_lit_cons (c : Char) (ps : List Item) (a : Char) (s : List Char) :
    matchRun (.lit c :: ps) (a :: s) =
      if a = c then (matchRun ps s).map (fun r => (a :: r.1, r.2.1, r.2.2)) else none := by
  rw [matchRun, show (Item.lit c :: ps).length + (a :: s).length + 1
      = (ps.length + s.length + 2) + 1 by simp; omega]
  rw [matchP_lit_cons, matchRun_eq (ps.length + s.length + 2) ps s (by omega)]

theorem matchRun_eol (ps : List Item) (s : List Char) :
    matchRun (.eol :: ps) s =
      if s = [] ∨ s.head? = some '\n' then matchRun ps s else none := by
  rw [matchRun, show (Item.eol :: ps).length + s.length + 1
      = (ps.length + s.length + 1) + 1 by simp; omega]
  rw [matchP_eol, matchRun_eq (ps.length + s.length + 1) ps s (by omega)]

theorem matchRun_lazy_stop {p : Char → Bool} {cap : Bool} {ps : List Item}
    {s : List Char} {r : List Char × List Char × List Char}
    (h : matchRun ps s = some r) : matchRun (.cls p .starLazy cap :: ps) s = some r := by
  rw [matchRun, show (Item.cls p .starLazy cap :: ps).length + s.length + 1
      = (ps.length + s.length + 1) + 1 by simp; omega]
  exact matchP_lazy_stop (by rw [matchRun_eq (ps.length + s.length + 1) ps s (by omega)]; exact h)

theorem matchRun_lazy_none_nil {p : Char → Bool} {cap : Bool} {ps : List Item}
    (h : matchRun ps [] = none) : matchRun (.cls p .starLazy cap :: ps) [] = none := by
  rw [matchRun, show (Item.cls p .starLazy cap :: ps).length + ([] : List Char).length + 1
      = (ps.length + 1) + 1 by simp]
  exact matchP_lazy_none_nil
    (by rw [matchRun_eq (ps.length + 1) ps [] (by simp)]; exact h)

theorem matchRun_lazy_none_cons {p : Char → Bool} {cap : Bool} {ps : List Item}
    {a : Char} {s' : List Char} (h : matchRun ps (a :: s') = none) :
    matchRun (.cls p .starLazy cap :: ps) (a :: s') =
      (if p a then
        (matchRun (.cls p .starLazy cap :: ps) s').map
          (fun r => (a :: r.1, if cap then a :: r.2.1 else r.2.1, r.2.2))
      else none) := by
  rw [matchRun, show (Item.cls p .starLazy cap :: ps).length + (a :: s').length + 1
      = (ps.length + s'.length + 2) + 1 by simp; omega]
  rw [matchP_lazy_none_cons
    (by rw [matchRun_eq (ps.length + s'.length + 2) ps (a :: s') (by simp; omega)]; exact h)]
  rw [matchRun_eq (ps.length + s'.length + 2) (.cls p .starLazy cap :: ps) s' (by simp; omega)]

theorem matchRun_greedy_nil {p : Char → Bool} {cap : Bool} {ps : List Item} :
    matchRun (.cls p .starGreedy cap :: ps) [] = matchRun ps [] := by
  rw [matchRun, show (Item.cls p .starGreedy cap :: ps).length + ([] : List Char).length + 1
      = (ps.length + 1) + 1 by simp]
  rw [matchP_greedy_nil, matchRun_eq (ps.length + 1) ps [] (by simp)]

theorem matchRun_greedy_cons_pos {p : Char → Bool} {cap : Bool} {ps : List Item}
    {a : Char} {s' : List Char} {r : List Char × List Char × List Char}
    (hpa : p a = true) (h : matchRun (.cls p .starGreedy cap :: ps) s' = some r) :
    matchRun (.cls p .starGreedy cap :: ps) (a :: s') =
      some (a :: r.1, if cap then a :: r.2.1 else r.2.1, r.2.2) := by
  rw [matchRun, show (Item.cls p .starGreedy cap :: ps).length + (a :: s').length + 1
      = (ps.length + s'.length + 2) + 1 by simp; omega]
  exact matchP_greedy_cons_pos hpa
    (by rw [matchRun_eq (ps.length + s'.length + 2) _ s' (by simp; omega)]; exact h)

theorem matchRun_greedy_cons_back {p : Char → Bool} {cap : Bool} {ps : List Item}
    {a : Char} {s' : List Char}
    (hpa : p a = true) (h : matchRun (.cls p .starGreedy cap :: ps) s' = none) :
    matchRun (.cls p .starGreedy cap :: ps) (a :: s') = matchRun ps (a :: s') := by
  rw [matchRun, show (Item.cls p .starGreedy cap :: ps).length + (a :: s').length + 1
      = (ps.length + s'.length + 2) + 1 by simp; omega]
  rw [matchP_greedy_cons_back hpa
    (by rw [matchRun_eq (ps.length + s'.length + 2) _ s' (by simp; omega)]; exact h)]
  rw [matchRun_eq (ps.length + s'.length + 2) ps (a :: s') (by simp; omega)]

theorem matchRun_greedy_cons_stop {p : Char → Bool} {cap : Bool} {ps : List Item}
    {a : Char} {s' : List Char} (hpa : p a = false) :
    matchRun (.cls p .starGreedy cap :: ps) (a :: s') = matchRun ps (a :: s') := by
  rw [matchRun, show (Item.cls p .starGreedy cap :: ps).length + (a :: s').length + 1
      = (ps.length + s'.length + 2) + 1 by simp; omega]
  rw [matchP_greedy_cons_stop hpa]
  rw [matchRun_eq (ps.length + s'.length + 2) ps (a :: s') (by simp; omega)]

theorem matchRun_plus_nil {p : Char → Bool} {cap : Bool} {ps : List Item} :
    matchRun (.cls p .plusGreedy cap :: ps) [] = none := by
  rw [matchRun, show (Item.cls p .plusGreedy cap :: ps).length + ([] : List Char).length + 1
      = (ps.length + 1) + 1 by simp]
  exact matchP_plus_nil _ p cap ps

theorem matchRun_plus_cons {p : Char → Bool} {cap : Bool} {ps : List Item}
    {a : Char} {s' : List Char} :
    matchRun (.cls p .plusGreedy cap :: ps) (a :: s') =
      (if p a then
        (matchRun (.cls p .starGreedy cap :: ps) s').map
          (fun r => (a :: r.1, if cap then a :: r.2.1 else r.2.1, r.2.2))
      else none) := by
  rw [matchRun, show (Item.cls p .plusGreedy cap :: ps).length + (a :: s').length + 1
      = (ps.length + s'.length + 2) + 1 by simp; omega]
  rw [matchP_plus_cons]
  rw [matchRun_eq (ps.length + s'.length + 2) (.cls p .starGreedy cap :: ps) s'
    (by simp; omega)]

/-! ### Driver infrastructure -/

theorem substAux_zero (pat : List Item) (rep : List Char → List Char) (anc b : Bool)
    (s : List Char) : substAux pat rep anc 0 b s = s := rfl

theorem substAux_nil (pat : List Item) (rep : List Char → List Char) (anc b : Bool)
    (f : Nat) : substAux pat rep anc (f + 1) b [] = [] := rfl

theorem substAux_cons (pat : List Item) (rep : List Char → List Char) (anc b : Bool)
    (f : Nat) (c : Char) (s : List Char) :
    substAux pat rep anc (f + 1) b (c :: s) =
      (if anc && !b then
        c :: substAux pat rep anc f (c == '\n') s
      else
        match matchRun pat (c :: s) with
        | some (con, cap, rest) =>
            if con.isEmpty then c :: substAux pat rep anc f (c == '\n') s
            else rep cap ++ substAux pat rep anc f (lastIsNL con) rest
        | none => c :: substAux pat rep anc f (c == '\n') s) := rfl

theorem substAux_cons_emit {pat : List Item} {rep : List Char → List Char} {anc b : Bool}
    {f : Nat} {c : Char} {s : List Char} (h : matchRun pat (c :: s) = none) :
    substAux pat rep anc (f + 1) b (c :: s) = c :: substAux pat rep anc f (c == '\n') s := by
  rw [substAux_cons, h]
  by_cases hg : anc && !b
  · rw [if_pos hg]
  · rw [if_neg hg]

theorem substAux_cons_skip {pat : List Item} {rep : List Char → List Char}
    {f : Nat} {c : Char} {s : List Char} :
    substAux pat rep true (f + 1) false (c :: s) =
      c :: substAux pat rep true f (c == '\n') s := by
  rw [substAux_cons, if_pos (by simp)]

theorem substAux_cons_match {pat : List Item} {rep : List Char → List Char} {anc b : Bool}
    {f : Nat} {c : Char} {s con cap rest : List Char}
    (hb : anc = false ∨ b = true) (h : matchRun pat (c :: s) = some (con, cap, rest))
    (hcon : con ≠ []) :
    substAux pat rep anc (f + 1) b (c :: s) =
      rep cap ++ substAux pat rep anc f (lastIsNL con) rest := by
  rw [substAux_cons, h, if_neg (by cases hb with
    | inl h' => simp [h']
    | inr h' => simp [h'])]
  have hred : (match (some (con, cap, rest) : Option (List Char × List Char × List Char)) with
      | some (con, cap, rest) =>
          if con.isEmpty then c :: substAux pat rep anc f (c == '\n') s
          else rep cap ++ substAux pat rep anc f (lastIsNL con) rest
      | none => c :: substAux pat rep anc f (c == '\n') s)
      = (if con.isEmpty then c :: substAux pat rep anc f (c == '\n') s
         else rep cap ++ substAux pat rep anc f (lastIsNL con) rest) := rfl
  rw [hred, if_neg (by simpa using hcon)]

/-- The driver's result does not depend on the fuel once it exceeds the text
    length (every step either consumes at least one character or ends). -/
theorem substAux_inv (pat : List Item) (rep : List Char → List Char) (anc : Bool) :
    ∀ (f g : Nat) (b : Bool) (s : List Char), s.length < f → s.length < g →
    substAux pat rep anc f b s = substAux pat rep anc g b s := by
  intro f
  induction f with
  | zero => intro g b s hf _; exact absurd hf (Nat.not_lt_zero _)
  | succ f ih =>
    intro g b s hf hg
    cases g with
    | zero => exact absurd hg (Nat.not_lt_zero _)
    | succ g =>
      cases s with
      | nil => rw [substAux_nil, substAux_nil]
      | cons c s =>
        cases hm : matchRun pat (c :: s) with
        | none =>
          rw [substAux_cons_emit hm, substAux_cons_emit hm]
          rw [ih g (c == '\n') s (by simp at hf; omega) (by simp at hg; omega)]
        | some r =>
          obtain ⟨con, cap, rest⟩ := r
          by_cases hcon : con = []
          · rw [substAux_cons, substAux_cons, hm]
            subst hcon
            simp only [List.isEmpty_nil, if_true]
            rw [ih g (c == '\n') s (by simp at hf; omega) (by simp at hg; omega)]
          · have hlen : rest.length ≤ s.length := by
              have := matchRun_consumed hm
              have : con.length + rest.length = s.length + 1 := by
                rw [← List.length_append, this]; simp
              have hc : 1 ≤ con.length := by
                cases con with
                | nil => exact absurd rfl hcon
                | cons _ _ => simp
              omega
            by_cases hb : anc = false ∨ b = true
            · rw [substAux_cons_match hb hm hcon, substAux_cons_match hb hm hcon]
              rw [ih g (lastIsNL con) rest (by simp at hf; omega) (by simp at hg; omega)]
            · have hanc : anc = true := by
                cases anc with
                | false => exact absurd (Or.inl rfl) hb
                | true => rfl
              have hbf : b = false := by
                cases b with
                | false => rfl
                | true => exact absurd (Or.inr rfl) hb
              subst hanc; subst hbf
              rw [substAux_cons_skip, substAux_cons_skip]
              rw [ih g (c == '\n') s (by simp at hf; omega) (by simp at hg; omega)]

/-- The driver with explicit beginning-of-line flag and canonical fuel. -/
def substB (pat : List Item) (rep : List Char → List Char) (anc b : Bool)
    (s : List Char) : List Char :=
  substAux pat rep anc (s.length + 1) b s

theorem subst_eq_substB (pat : List Item) (rep : List Char → List Char) (anc : Bool)
    (s : List Char) : subst pat rep anc s = substB pat rep anc true s := rfl

theorem substB_nil (pat : List Item) (rep : List Char → List Char) (anc b : Bool) :
    substB pat rep anc b [] = [] := rfl

theorem substB_emit {pat : List Item} {rep : List Char → List Char} {anc b : Bool}
    {c : Char} {s : List Char} (h : matchRun pat (c :: s) = none) :
    substB pat rep anc b (c :: s) = c :: substB pat rep anc (c == '\n') s := by
  rw [substB, show (c :: s).length + 1 = (s.length + 1) + 1 by simp]
  rw [substAux_cons_emit h]
  rfl

theorem substB_skip {pat : List Item} {rep : List Char → List Char}
    {c : Char} {s : List Char} :
    substB pat rep true false (c :: s) = c :: substB pat rep true (c == '\n') s := by
  rw [substB, show (c :: s).length + 1 = (s.length + 1) + 1 by simp]
  rw [substAux_cons_skip]
  rfl

theorem substB_match {pat : List Item} {rep : List Char → List Char} {anc b : Bool}
    {c : Char} {s con cap rest : List Char}
    (hb : anc = false ∨ b = true) (h : matchRun pat (c :: s) = some (con, cap, rest))
    (hcon : con ≠ []) :
    substB pat rep anc b (c :: s) = rep cap ++ substB pat rep anc (lastIsNL con) rest := by
  rw [substB, show (c :: s).length + 1 = (s.length + 1) + 1 by simp]
  rw [substAux_cons_match hb h hcon]
  have hlen : rest.length ≤ s.length := by
    have h2 := matchRun_consumed h
    have h3 : con.length + rest.length = s.length + 1 := by
      rw [← List.length_append, h2]; simp
    have hc : 1 ≤ con.length := by
      cases con with
      | nil => exact absurd rfl hcon
      | cons _ _ => simp
    omega
  rw [substAux_inv pat rep anc (s.length + 1) (rest.length + 1) (lastIsNL con) rest
    (by omega) (by omega)]
  rfl

/-- No match can start at a character `a` (for any tail). -/
def headFail (pat : List Item) (a : Char) : Prop :=
  ∀ u, matchRun pat (a :: u) = none

theorem headFail_lit {c₀ : Char} {ps : List Item} {a : Char} (h : a ≠ c₀) :
    headFail (.lit c₀ :: ps) a := by
  intro u; rw [matchRun_lit_cons, if_neg h]

theorem headFail_plus {p : Char → Bool} {cap : Bool} {ps : List Item} {a : Char}
    (h : p a = false) : headFail (.cls p .plusGreedy cap :: ps) a := by
  intro u; rw [matchRun_plus_cons, if_neg (by simp [h])]

/-- Beginning-of-line status after emitting `xs` verbatim, starting from `b`. -/
def bolAfter (xs : List Char) (b : Bool) : Bool :=
  match xs.getLast? with
  | some c => c == '\n'
  | none => b

theorem bolAfter_nil (b : Bool) : bolAfter [] b = b := rfl

theorem bolAfter_cons (a : Char) (xs : List Char) (b : Bool) :
    bolAfter (a :: xs) b = bolAfter xs (a == '\n') := by
  cases xs with
  | nil => rfl
  | cons x xs => rw [bolAfter, List.getLast?_cons_cons]; rfl

/-- Characters at which no match can start are emitted verbatim by the driver. -/
theorem substB_walk {pat : List Item} {rep : List Char → List Char} {anc : Bool}
    (xs : List Char) (h : ∀ a ∈ xs, headFail pat a) :
    ∀ (b : Bool) (rest : List Char),
      substB pat rep anc b (xs ++ rest) = xs ++ substB pat rep anc (bolAfter xs b) rest := by
  induction xs with
  | nil => intro b rest; rw [bolAfter_nil]; rfl
  | cons a xs ih =>
    intro b rest
    rw [List.cons_append, substB_emit (h a (by simp) (xs ++ rest)),
      ih (fun x hx => h x (by simp [hx])) (a == '\n') rest, bolAfter_cons]
    rfl

/-- A text in which no match can start anywhere is left unchanged. -/
theorem subst_id_of_headFail {pat : List Item} {rep : List Char → List Char} {anc : Bool}
    {s : List Char} (h : ∀ a ∈ s, headFail pat a) : subst pat rep anc s = s := by
  rw [subst_eq_substB, show s = s ++ [] by simp]
  rw [substB_walk s (by simpa using h), substB_nil]

/-! ### Pattern-level lemmas -/

/-- A pure-literal pattern matches exactly when it is a prefix. -/
theorem matchRun_lits : ∀ (w u : List Char),
    matchRun (lits w) u =
      if isPfx w u then some (w, [], u.drop w.length) else none := by
  intro w
  induction w with
  | nil => intro u; rw [lits, List.map_nil, matchRun_nilpat]; simp [isPfx]
  | cons c w ih =>
    intro u
    cases u with
    | nil =>
      rw [lits, List.map_cons, matchRun_lit_nil]
      simp [isPfx]
    | cons b u' =>
      rw [lits, List.map_cons, matchRun_lit_cons, ← lits, ih u']
      by_cases hbc : b = c
      · rw [if_pos hbc]
        by_cases hp : isPfx w u'
        · rw [if_pos hp]
          have : isPfx (c :: w) (b :: u') = true := by
            rw [isPfx]; simp [hbc, hp]
          rw [if_pos this]
          simp [hbc, List.drop_succ_cons]
        · rw [if_neg hp]
          have : ¬ isPfx (c :: w) (b :: u') = true := by
            rw [isPfx]; simp [hbc]; simpa using hp
          rw [if_neg this]
          rfl
      · rw [if_neg hbc]
        have : ¬ isPfx (c :: w) (b :: u') = true := by
          rw [isPfx]; simp; intro hcb; exact absurd hcb.symm hbc
        rw [if_neg this]

/-- Matching `lits w ++ P` against `w ++ u` consumes `w` and continues with `P`. -/
theorem matchRun_lits_append : ∀ (w : List Char) (P : List Item) (u : List Char),
    matchRun (lits w ++ P) (w ++ u) =
      (matchRun P u).map (fun r => (w ++ r.1, r.2.1, r.2.2)) := by
  intro w
  induction w with
  | nil =>
    intro P u
    simp only [lits, List.map_nil, List.nil_append]
    cases hm : matchRun P u with
    | none => rfl
    | some r => obtain ⟨rc, rcap, rr⟩ := r; rfl
  | cons c w ih =>
    intro P u
    simp only [lits, List.map_cons, List.cons_append]
    rw [matchRun_lit_cons, if_pos rfl, ← lits, ih P u]
    cases hm : matchRun P u with
    | none => rfl
    | some r => obtain ⟨rc, rcap, rr⟩ := r; rfl

/-- A lazy star scans over characters of its class while the continuation
    fails, prepending them to the consumed text (and the capture, if any). -/
theorem matchRun_lazy_skip {p : Char → Bool} {cap : Bool} {K : List Item} :
    ∀ (xs u : List Char), (∀ a ∈ xs, p a = true) →
      (∀ k, k < xs.length → matchRun K (xs.drop k ++ u) = none) →
      matchRun (.cls p .starLazy cap :: K) (xs ++ u) =
        (matchRun (.cls p .starLazy cap :: K) u).map
          (fun r => (xs ++ r.1, if cap then xs ++ r.2.1 else r.2.1, r.2.2)) := by
  intro xs
  induction xs with
  | nil =>
    intro u _ _
    simp only [List.nil_append]
    cases hm : matchRun (.cls p .starLazy cap :: K) u with
    | none => rfl
    | some r =>
      obtain ⟨rc, rcap, rr⟩ := r
      cases cap <;> rfl
  | cons a xs ih =>
    intro u hp hK
    have hstop : matchRun K (a :: (xs ++ u)) = none := by
      have := hK 0 (by simp)
      simpa using this
    rw [List.cons_append, matchRun_lazy_none_cons hstop, if_pos (hp a (by simp))]
    rw [ih u (fun x hx => hp x (by simp [hx]))
      (fun k hk => by have := hK (k + 1) (by simp; omega); simpa using this)]
    cases hm : matchRun (.cls p .starLazy cap :: K) u with
    | none => rfl
    | some r =>
      obtain ⟨rc, rcap, rr⟩ := r
      cases cap <;> simp

/-! ### Block-environment collapse -/

theorem isPfx_refl : ∀ w : List Char, isPfx w w = true := by
  intro w
  induction w with
  | nil => rfl
  | cons a w ih => rw [isPfx]; simp [ih]

/-- "The end marker `e` first occurs at position `c.length` of `c ++ e`":
    the hypothesis under which a lazy DOTALL scan consumes exactly `c`. -/
def noEarlyEnd (c e : List Char) : Prop :=
  ∀ k, k < c.length → isPfx e ((c ++ e).drop k) = false

instance (c e : List Char) : Decidable (noEarlyEnd c e) := by
  unfold noEarlyEnd; infer_instance

/-- The DOTALL lazy star with continuation `lits envE` consumes exactly `c`
    and the end marker, when the end marker first occurs at position `c.length`. -/
theorem env_collapse (envE : List Char) :
    ∀ c : List Char, noEarlyEnd c envE →
      matchRun (anyLazy :: lits envE) (c ++ envE) = some (c ++ envE, [], []) := by
  intro c
  induction c with
  | nil =>
    intro _
    simp only [List.nil_append]
    apply matchRun_lazy_stop
    rw [matchRun_lits, if_pos (isPfx_refl envE)]
    simp
  | cons a c ih =>
    intro H
    have hstop : matchRun (lits envE) (a :: (c ++ envE)) = none := by
      rw [matchRun_lits]
      have h0 := H 0 (by simp)
      simp only [List.drop_zero, List.cons_append] at h0
      rw [if_neg (by simp [h0])]
    simp only [anyLazy, List.cons_append]
    rw [matchRun_lazy_none_cons hstop, if_pos rfl]
    have ih2 := ih (fun k hk => by
      have := H (k + 1) (by simp; omega)
      simpa using this)
    simp only [anyLazy] at ih2
    rw [ih2]
    simp

/-- `re.sub(r'\begin{env}.*?\end{env}', rep, ...)` (DOTALL) collapses a whole
    environment to one replacement. -/
theorem subst_env (envB envE : List Char) (rep : List Char → List Char)
    (hB : envB ≠ []) (c : List Char) (H : noEarlyEnd c envE) :
    subst (envPat envB envE) rep false (envB ++ (c ++ envE)) = rep [] := by
  have hm : matchRun (envPat envB envE) (envB ++ (c ++ envE)) =
      some (envB ++ (c ++ envE), [], []) := by
    rw [envPat, List.append_assoc, matchRun_lits_append envB ([anyLazy] ++ lits envE)]
    rw [List.singleton_append, env_collapse envE c H]
    simp
  cases envB with
  | nil => exact absurd rfl hB
  | cons b0 envB' =>
    rw [subst_eq_substB, List.cons_append]
    rw [List.cons_append] at hm
    rw [substB_match (Or.inr rfl) hm (by simp), substB_nil]
    simp

/-- C1: each of the three block-math environments (`equation`, `align`,
    `split`), whatever its interior content `c` and however many lines it
    spans (the DOTALL lazy star crosses newlines), is collapsed by its stage
    to exactly one `<EQN HERE>` placeholder; the hypothesis `noEarlyEnd` says
    the matching end marker is the first one after the opening.  Moreover the
    whole conversion maps `\begin{equation}\nx = y + z\n\end{equation}` to
    exactly `<EQN HERE>`. -/
theorem claim1_block_math_collapse :
    (∀ c : List Char, noEarlyEnd c eqEnd →
        equationSub (eqBegin ++ (c ++ eqEnd)) = eqnPlaceholder) ∧
    (∀ c : List Char, noEarlyEnd c alignEnd →
        alignSub (alignBegin ++ (c ++ alignEnd)) = eqnPlaceholder) ∧
    (∀ c : List Char, noEarlyEnd c splitEnd →
        splitSub (splitBegin ++ (c ++ splitEnd)) = eqnPlaceholder) ∧
    processLatex
        ['\\','b','e','g','i','n','{','e','q','u','a','t','i','o','n','}','\n',
         'x',' ','=',' ','y',' ','+',' ','z','\n',
         '\\','e','n','d','{','e','q','u','a','t','i','o','n','}'] =
      eqnPlaceholder := by
  refine ⟨?_, ?_, ?_, ?_⟩
  · intro c hc
    exact subst_env eqBegin eqEnd _ (by simp [eqBegin]) c hc
  · intro c hc
    exact subst_env alignBegin alignEnd _ (by simp [alignBegin]) c hc
  · intro c hc
    exact subst_env splitBegin splitEnd _ (by simp [splitBegin]) c hc
  · decide

/-- Witness for C1: instantiating the three stage statements on concrete
    environments (the scenario's interior for `equation`). -/
theorem claim1_block_math_collapse_witness :
    equationSub (eqBegin ++
        (['\n','x',' ','=',' ','y',' ','+',' ','z','\n'] ++ eqEnd)) = eqnPlaceholder ∧
    alignSub (alignBegin ++ (['a','=','b'] ++ alignEnd)) = eqnPlaceholder ∧
    splitSub (splitBegin ++ (['a','=','b'] ++ splitEnd)) = eqnPlaceholder :=
  ⟨claim1_block_math_collapse.1 ['\n','x',' ','=',' ','y',' ','+',' ','z','\n'] (by decide),
   claim1_block_math_collapse.2.1 ['a','=','b'] (by decide),
   claim1_block_math_collapse.2.2.1 ['a','=','b'] (by decide)⟩

/-! ### Concrete scenarios -/

/-- Substring test (used to state that an output has no blank line). -/
def containsSub (pat : List Char) : List Char → Bool
  | [] => isPfx pat []
  | c :: s => isPfx pat (c :: s) || containsSub pat s

/-- "No command token": no backslash immediately followed by an ASCII letter. -/
def noCmdTok : List Char → Bool
  | a :: b :: t => !(a == '\\' && isAsciiLetter b) && noCmdTok (b :: t)
  | _ => true

/-- C7: the conversion maps `\section{Intro}\label{sec:intro}\nHello
    \textbf{world}.` to exactly `# Intro\nHello world.`: the labeled section
    becomes a depth-1 heading with the label discarded, and `\textbf` is
    unwrapped to its bare argument. -/
theorem claim7_scenario1 :
    processLatex
        ['\\','s','e','c','t','i','o','n','{','I','n','t','r','o','}',
         '\\','l','a','b','e','l','{','s','e','c',':','i','n','t','r','o','}','\n',
         'H','e','l','l','o',' ','\\','t','e','x','t','b','f','{','w','o','r','l','d','}','.'] =
      ['#',' ','I','n','t','r','o','\n','H','e','l','l','o',' ','w','o','r','l','d','.'] := by
  decide

/-- C4 (failing input): on `A~\cite{foo}.` the conversion outputs `A~.` —
    the tilde remains.  The `\cite{...}` rule at line 62 runs before the
    `~\cite{...}` rule at line 63, so the citation is already gone when the
    tilde-aware rule runs, and the tilde-aware rule never fires; the claim
    (and the spec, and the dead rule's evident intent) say the tilde leaves
    no residue. -/
theorem claim4_tilde_residue :
    processLatex ['A','~','\\','c','i','t','e','{','f','o','o','}','.'] =
      ['A','~','.'] := by
  decide

/-- C8 counterexample: on input with three consecutive blank lines between
    two paragraphs the conversion yields the two paragraphs on consecutive
    lines with NO blank line between them (the claim says exactly one blank
    line).  Stage `\n\s*\n\s*\n → \n\n` does collapse the run to one blank
    line, but the following `^\s+` (MULTILINE) strip then deletes the blank
    line's own newline, which is leading whitespace of that line. -/
theorem claim8_counterexample :
    processLatex ['p','a','r','a','1','\n','\n','\n','\n','p','a','r','a','2'] =
        ['p','a','r','a','1','\n','p','a','r','a','2'] ∧
    containsSub ['\n','\n']
        (processLatex ['p','a','r','a','1','\n','\n','\n','\n','p','a','r','a','2']) = false := by
  constructor
  · decide
  · decide

/-- C9 counterexample: `convert` is not idempotent on all outputs free of
    command tokens.  For `a\n\foo{x} y` the first pass outputs `a\n y`
    (the catch-all deletes `\foo{x}` AFTER whitespace normalization, exposing
    a space at the start of the second line), which contains no backslash at
    all — yet a second pass strips that leading space, giving `a\ny`. -/
theorem claim9_counterexample :
    processLatex ['a','\n','\\','f','o','o','{','x','}',' ','y'] = ['a','\n',' ','y'] ∧
    noCmdTok ['a','\n',' ','y'] = true ∧
    processLatex ['a','\n',' ','y'] ≠ ['a','\n',' ','y'] := by
  refine ⟨by decide, by decide, by decide⟩

/-! ### Scanning lemmas -/

theorem drop_cons_mem : ∀ (xs : List Char) (k : Nat), k < xs.length →
    ∃ c t, xs.drop k = c :: t ∧ c ∈ xs := by
  intro xs
  induction xs with
  | nil => intro k hk; simp at hk
  | cons a xs ih =>
    intro k hk
    cases k with
    | zero => exact ⟨a, xs, by simp, by simp⟩
    | succ k =>
      obtain ⟨c, t, h1, h2⟩ := ih k (by simp at hk; omega)
      exact ⟨c, t, by simpa using h1, by simp [h2]⟩

/-- A greedy star over class `p` stops (without consuming) at `[]` or at a
    character outside the class. -/
theorem matchRun_greedy_exit {p : Char → Bool} {cap : Bool} {K : List Item} {u : List Char}
    (hu : u = [] ∨ ∃ c u', u = c :: u' ∧ p c = false) :
    matchRun (.cls p .starGreedy cap :: K) u = matchRun K u := by
  cases hu with
  | inl h => subst h; exact matchRun_greedy_nil
  | inr h =>
    obtain ⟨c, u', rfl, hc⟩ := h
    exact matchRun_greedy_cons_stop hc

/-- A greedy star over class `p` consumes a whole run `xs` of `p`-characters
    when the next character exits the class and the continuation then
    succeeds (so no backtracking into the run happens). -/
theorem matchRun_greedy_scan {p : Char → Bool} {cap : Bool} {K : List Item} :
    ∀ (xs u : List Char) (r : List Char × List Char × List Char),
      (∀ a ∈ xs, p a = true) →
      (u = [] ∨ ∃ c u', u = c :: u' ∧ p c = false) →
      matchRun K u = some r →
      matchRun (.cls p .starGreedy cap :: K) (xs ++ u) =
        some (xs ++ r.1, if cap then xs ++ r.2.1 else r.2.1, r.2.2) := by
  intro xs
  induction xs with
  | nil =>
    intro u r _ hu hK
    rw [List.nil_append, matchRun_greedy_exit hu, hK]
    obtain ⟨rc, rcap, rr⟩ := r
    cases cap <;> simp
  | cons a xs ih =>
    intro u r hp hu hK
    have hrec := ih u r (fun x hx => hp x (by simp [hx])) hu hK
    rw [List.cons_append, matchRun_greedy_cons_pos (hp a (by simp)) hrec]
    obtain ⟨rc, rcap, rr⟩ := r
    cases cap <;> simp

/-- A lazy star over class `p` scans a run of `p`-characters none of which is
    the literal `d` that follows it in the pattern, consumes the `d`, and
    continues; `xs` lands in the capture when the star is capturing. -/
theorem matchRun_lazy_lit_scan {p : Char → Bool} {cap : Bool} {d : Char} {K : List Item}
    (xs u : List Char) (r : List Char × List Char × List Char)
    (hxs : ∀ a ∈ xs, p a = true ∧ a ≠ d)
    (hK : matchRun K u = some r) :
    matchRun (.cls p .starLazy cap :: .lit d :: K) (xs ++ (d :: u)) =
      some (xs ++ (d :: r.1), if cap then xs ++ r.2.1 else r.2.1, r.2.2) := by
  obtain ⟨rc, rcap, rr⟩ := r
  have hstop : matchRun (.lit d :: K) (d :: u) =
      some (d :: rc, rcap, rr) := by
    rw [matchRun_lit_cons, if_pos rfl, hK]
    rfl
  have hinner : matchRun (.cls p .starLazy cap :: .lit d :: K) (d :: u) =
      some (d :: rc, rcap, rr) := matchRun_lazy_stop hstop
  have hKfail : ∀ k, k < xs.length →
      matchRun (.lit d :: K) (xs.drop k ++ (d :: u)) = none := by
    intro k hk
    obtain ⟨c, t, hdrop, hcmem⟩ := drop_cons_mem xs k hk
    rw [hdrop, List.cons_append, matchRun_lit_cons, if_neg (hxs c hcmem).2]
  rw [matchRun_lazy_skip xs (d :: u) (fun a ha => (hxs a ha).1) hKfail, hinner]
  cases cap <;> simp

/-- The failing variant: when the text ends right after the literal `d` and
    the continuation cannot match the empty rest, the lazy star backtracks
    through the whole text and the match fails. -/
theorem matchRun_lazy_lit_fail {p : Char → Bool} {cap : Bool} {d : Char} {K : List Item}
    (hd : p d = true) (hKnil : matchRun K [] = none) :
    ∀ xs : List Char, (∀ a ∈ xs, p a = true ∧ a ≠ d) →
      matchRun (.cls p .starLazy cap :: .lit d :: K) (xs ++ [d]) = none := by
  intro xs
  induction xs with
  | nil =>
    intro _
    have hstop : matchRun (.lit d :: K) [d] = none := by
      rw [show [d] = [d] ++ ([] : List Char) by simp, List.singleton_append,
        matchRun_lit_cons, if_pos rfl, hKnil]
      rfl
    rw [List.nil_append, matchRun_lazy_none_cons hstop, if_pos hd]
    have hnil : matchRun (.cls p .starLazy cap :: .lit d :: K) [] = none :=
      matchRun_lazy_none_nil (matchRun_lit_nil d K)
    rw [hnil]
    rfl
  | cons a xs ih =>
    intro hxs
    have hstop : matchRun (.lit d :: K) (a :: (xs ++ [d])) = none := by
      rw [matchRun_lit_cons, if_neg (hxs a (by simp)).2]
    rw [List.cons_append, matchRun_lazy_none_cons hstop, if_pos (hxs a (by simp)).1]
    rw [ih (fun x hx => hxs x (by simp [hx]))]
    rfl

/-- No match of a literal-headed pattern starts at a character other than the
    pattern's first literal (pattern given as `lits (c₀ :: w) ++ P`). -/
theorem headFail_lits {c₀ : Char} {w : List Char} {P : List Item} {a : Char} (h : a ≠ c₀) :
    headFail (lits (c₀ :: w) ++ P) a := by
  intro u
  rw [lits, List.map_cons, List.cons_append]
  exact headFail_lit h u

/-- Same for a pure-literal pattern. -/
theorem headFail_litsOnly {c₀ : Char} {w : List Char} {a : Char} (h : a ≠ c₀) :
    headFail (lits (c₀ :: w)) a := by
  intro u
  rw [matchRun_lits, isPfx, if_neg (by simp; intro hc; exact absurd hc.symm h)]

/-! ### C5: catch-all removal of unrecognized commands -/

/-- C5: the conversion is total (it is a Lean function, so it can never
    raise), and the catch-all stage `\\[a-zA-Z]+\{.*?\}` removes an
    unrecognized command together with its whole brace-delimited argument,
    leaving exactly the surrounding text; concretely,
    `before \unknownCmd{arg} after` converts to `before  after`. -/
theorem claim5_catch_all :
    (∀ (pre name arg post : List Char),
        (∀ c ∈ pre, c ≠ '\\') → name ≠ [] →
        (∀ c ∈ name, isAsciiLetter c = true) →
        (∀ c ∈ arg, isDotChar c = true ∧ c ≠ '}') →
        (∀ c ∈ post, c ≠ '\\') →
        catchBraceSub (pre ++ ('\\' :: (name ++ ('{' :: (arg ++ ('}' :: post)))))) =
          pre ++ post) ∧
    processLatex
        ['b','e','f','o','r','e',' ','\\','u','n','k','n','o','w','n','C','m','d',
         '{','a','r','g','}',' ','a','f','t','e','r'] =
      ['b','e','f','o','r','e',' ',' ','a','f','t','e','r'] := by
  constructor
  · intro pre name arg post hpre hname0 hname harg hpost
    cases name with
    | nil => exact absurd rfl hname0
    | cons n0 name' =>
      have h3 : matchRun [.cls isDotChar .starLazy false, .lit '}']
          (arg ++ ('}' :: post)) = some (arg ++ ['}'], [], post) := by
        have := @matchRun_lazy_lit_scan isDotChar false '}' [] arg post ([], [], post)
          (fun a ha => ⟨(harg a ha).1, (harg a ha).2⟩) (matchRun_nilpat post)
        simpa using this
      have h2 : matchRun [.lit '{', .cls isDotChar .starLazy false, .lit '}']
          ('{' :: (arg ++ ('}' :: post))) = some ('{' :: (arg ++ ['}']), [], post) := by
        rw [matchRun_lit_cons, if_pos rfl, h3]
        rfl
      have h1 : matchRun (.cls isAsciiLetter .starGreedy false ::
            [.lit '{', .cls isDotChar .starLazy false, .lit '}'])
          (name' ++ ('{' :: (arg ++ ('}' :: post)))) =
          some (name' ++ ('{' :: (arg ++ ['}'])), [], post) := by
        have := @matchRun_greedy_scan isAsciiLetter false
          [.lit '{', .cls isDotChar .starLazy false, .lit '}']
          name' ('{' :: (arg ++ ('}' :: post)))
          ('{' :: (arg ++ ['}']), [], post)
          (fun a ha => hname a (by simp [ha]))
          (Or.inr ⟨'{', arg ++ ('}' :: post), rfl, by decide⟩) h2
        simpa using this
      have h0 : matchRun catchBracePat
          ('\\' :: ((n0 :: name') ++ ('{' :: (arg ++ ('}' :: post))))) =
          some ('\\' :: ((n0 :: name') ++ ('{' :: (arg ++ ['}']))), [], post) := by
        show matchRun (.lit '\\' :: [.cls isAsciiLetter .plusGreedy false, .lit '{',
          .cls isDotChar .starLazy false, .lit '}']) _ = _
        rw [matchRun_lit_cons, if_pos rfl, List.cons_append, matchRun_plus_cons,
          if_pos (hname n0 (by simp)), h1]
        simp
      rw [catchBraceSub, subst_eq_substB]
      have hwalk := @substB_walk catchBracePat erase false pre
        (fun a ha => headFail_lit (hpre a ha)) true
        ('\\' :: ((n0 :: name') ++ ('{' :: (arg ++ ('}' :: post)))))
      rw [hwalk]
      rw [substB_match (Or.inl rfl) h0 (by simp)]
      rw [show post = post ++ ([] : List Char) by simp]
      have hwalk2 := @substB_walk catchBracePat erase false post
        (fun a ha => headFail_lit (hpost a (by simpa using ha)))
      rw [hwalk2, substB_nil]
      simp [erase]
  · decide

/-- Witness for C5 at the scenario's decomposition. -/
theorem claim5_catch_all_witness :
    catchBraceSub
        (['b','e','f','o','r','e',' '] ++ ('\\' ::
          (['u','n','k','n','o','w','n','C','m','d'] ++ ('{' ::
            (['a','r','g'] ++ ('}' :: [' ','a','f','t','e','r'])))))) =
      ['b','e','f','o','r','e',' '] ++ [' ','a','f','t','e','r'] :=
  claim5_catch_all.1 ['b','e','f','o','r','e',' '] ['u','n','k','n','o','w','n','C','m','d']
    ['a','r','g'] [' ','a','f','t','e','r'] (by decide) (by decide) (by decide) (by decide)
    (by decide)

/-! ### C3: inline math spans -/

theorem lastIsNL_concat (l : List Char) (a : Char) :
    lastIsNL (l ++ [a]) = (a == '\n') := by
  rw [lastIsNL, List.getLast?_concat]

/-- C3: each inline `$...$` span keeps both delimiters and gets its interior
    replaced by `cleanMath` of the interior (the embedding of
    `clean_math_content`, which applies, in order: commands with a brace
    argument unwrapped to the bare argument, remaining bare commands deleted,
    `\left`/`\right` deleted, `\text{...}` unwrapped, then trim); the driver
    then continues after the span.  Concretely,
    `The value $\mathbf{v}$ is large\cite{foo}.` converts to
    `The value $v$ is large.`. -/
theorem claim3_inline_math :
    (∀ (c rest : List Char) (b : Bool), (∀ a ∈ c, a ≠ '$') →
        substB inlineMathPat (fun g => '$' :: (cleanMath g ++ ['$'])) false b
            ('$' :: (c ++ ('$' :: rest))) =
          ('$' :: (cleanMath c ++ ['$'])) ++
            substB inlineMathPat (fun g => '$' :: (cleanMath g ++ ['$'])) false false rest) ∧
    processLatex
        ['T','h','e',' ','v','a','l','u','e',' ','$','\\','m','a','t','h','b','f',
         '{','v','}','$',' ','i','s',' ','l','a','r','g','e',
         '\\','c','i','t','e','{','f','o','o','}','.'] =
      ['T','h','e',' ','v','a','l','u','e',' ','$','v','$',' ','i','s',' ',
       'l','a','r','g','e','.'] := by
  constructor
  · intro c rest b hc
    have hscan := @matchRun_lazy_lit_scan (fun x => x != '$') true '$' [] c rest
      ([], [], rest) (fun a ha => ⟨by simpa using hc a ha, hc a ha⟩)
      (matchRun_nilpat rest)
    have hm : matchRun inlineMathPat ('$' :: (c ++ ('$' :: rest))) =
        some ('$' :: (c ++ ['$']), c, rest) := by
      show matchRun (.lit '$' :: [.cls (fun x => x != '$') .starLazy true, .lit '$']) _ = _
      rw [matchRun_lit_cons, if_pos rfl, hscan]
      simp
    rw [substB_match (Or.inl rfl) hm (by simp)]
    rw [show ('$' :: (c ++ ['$'])) = ('$' :: c) ++ ['$'] from by simp]
    rw [lastIsNL_concat]
    rfl
  · decide

/-- Witness for C3's span statement, at the interior `\mathbf{v}`. -/
theorem claim3_inline_math_witness :
    substB inlineMathPat (fun g => '$' :: (cleanMath g ++ ['$'])) false true
        ('$' :: (['\\','m','a','t','h','b','f','{','v','}'] ++
          ('$' :: [' ','i','s',' ','l','a','r','g','e','.']))) =
      ('$' :: (cleanMath ['\\','m','a','t','h','b','f','{','v','}'] ++ ['$'])) ++
        substB inlineMathPat (fun g => '$' :: (cleanMath g ++ ['$'])) false false
          [' ','i','s',' ','l','a','r','g','e','.'] :=
  claim3_inline_math.1 ['\\','m','a','t','h','b','f','{','v','}']
    [' ','i','s',' ','l','a','r','g','e','.'] true (by decide)

/-! ### C2: heading conversion -/

/-- `\label{` -/
def labelWord : List Char := ['\\','l','a','b','e','l','{']

/-- `\section{` -/
def secWord : List Char := ['\\','s','e','c','t','i','o','n','{']

/-- `\subsection{` -/
def subWord : List Char := ['\\','s','u','b','s','e','c','t','i','o','n','{']

/-- `\subsubsection{` -/
def subsubWord : List Char := ['\\','s','u','b','s','u','b','s','e','c','t','i','o','n','{']

/-- The six heading stages (source lines 49-56), in source order. -/
def headingStages (s : List Char) : List Char :=
  subsubsectionSub (subsubsectionLabelSub (subsectionSub (subsectionLabelSub
    (sectionSub (sectionLabelSub s)))))

theorem shape_sectionLabelPat : sectionLabelPat =
    lits ('\\' :: ['s','e','c','t','i','o','n','{']) ++
      (.cls isDotChar .starLazy true :: .lit '}' :: .cls isSpaceChar .starGreedy false ::
        (lits labelWord ++ (.cls isDotChar .starLazy false :: [.lit '}']))) := rfl

theorem shape_subsectionLabelPat : subsectionLabelPat =
    lits ('\\' :: ['s','u','b','s','e','c','t','i','o','n','{']) ++
      (.cls isDotChar .starLazy true :: .lit '}' :: .cls isSpaceChar .starGreedy false ::
        (lits labelWord ++ (.cls isDotChar .starLazy false :: [.lit '}']))) := rfl

theorem shape_subsubsectionLabelPat : subsubsectionLabelPat =
    lits ('\\' :: ['s','u','b','s','u','b','s','e','c','t','i','o','n','{']) ++
      (.cls isDotChar .starLazy true :: .lit '}' :: .cls isSpaceChar .starGreedy false ::
        (lits labelWord ++ (.cls isDotChar .starLazy false :: [.lit '}']))) := rfl

theorem shape_sectionPat : sectionPat =
    lits ('\\' :: ['s','e','c','t','i','o','n','{']) ++
      (.cls isDotChar .starLazy true :: [.lit '}']) := rfl

theorem shape_subsectionPat : subsectionPat =
    lits ('\\' :: ['s','u','b','s','e','c','t','i','o','n','{']) ++
      (.cls isDotChar .starLazy true :: [.lit '}']) := rfl

theorem shape_subsubsectionPat : subsubsectionPat =
    lits ('\\' :: ['s','u','b','s','u','b','s','e','c','t','i','o','n','{']) ++
      (.cls isDotChar .starLazy true :: [.lit '}']) := rfl

/-- A text at which no match starts anywhere is left unchanged (bol-general). -/
theorem substB_id_of_headFail {pat : List Item} {rep : List Char → List Char} {anc : Bool}
    (v : List Char) (hv : ∀ a ∈ v, headFail pat a) (b : Bool) :
    substB pat rep anc b v = v := by
  conv_lhs => rw [show v = v ++ ([] : List Char) by simp]
  rw [substB_walk v hv, substB_nil]
  simp

theorem subst_id_1seg {pat : List Item} {rep : List Char → List Char} {anc : Bool}
    (c₁ : Char) (v₁ : List Char)
    (h1 : matchRun pat (c₁ :: v₁) = none) (hv : ∀ a ∈ v₁, headFail pat a) :
    subst pat rep anc (c₁ :: v₁) = c₁ :: v₁ := by
  rw [subst_eq_substB, substB_emit h1, substB_id_of_headFail v₁ hv]

theorem subst_id_2seg {pat : List Item} {rep : List Char → List Char} {anc : Bool}
    (c₁ : Char) (v₁ : List Char) (c₂ : Char) (v₂ : List Char)
    (h1 : matchRun pat (c₁ :: (v₁ ++ (c₂ :: v₂))) = none)
    (hv₁ : ∀ a ∈ v₁, headFail pat a)
    (h2 : matchRun pat (c₂ :: v₂) = none)
    (hv₂ : ∀ a ∈ v₂, headFail pat a) :
    subst pat rep anc (c₁ :: (v₁ ++ (c₂ :: v₂))) = c₁ :: (v₁ ++ (c₂ :: v₂)) := by
  rw [subst_eq_substB, substB_emit h1, substB_walk v₁ hv₁, substB_emit h2,
    substB_id_of_headFail v₂ hv₂]

/-- A pattern whose literal prefix starts with a backslash cannot touch a
    backslash-free text. -/
theorem subst_id_noBS {w : List Char} {P : List Item} {rep : List Char → List Char}
    {anc : Bool} (s : List Char) (h : ∀ a ∈ s, a ≠ '\\') :
    subst (lits ('\\' :: w) ++ P) rep anc s = s :=
  subst_id_of_headFail (fun a ha => headFail_lits (h a ha))

theorem ne_bs_of_mem {l : List Char} (h : l.all (fun x => x != '\\') = true) {c : Char}
    (ha : c ∈ l) : c ≠ '\\' := by
  have := List.all_eq_true.mp h c ha
  simpa using this

theorem notBS_cons {c : Char} {T : List Char} (hc : c ≠ '\\')
    (hT : ∀ a ∈ T, a ≠ '\\') : ∀ a ∈ c :: T, a ≠ '\\' := by
  intro a ha
  rcases List.mem_cons.mp ha with h | h
  · rw [h]; exact hc
  · exact hT a h

theorem notBS_segment {A T : List Char} (hA : A.all (fun x => x != '\\') = true)
    (hT : ∀ a ∈ T, a ≠ '\\') : ∀ a ∈ A ++ (T ++ ['}']), a ≠ '\\' := by
  intro a ha
  rcases List.mem_append.mp ha with h | h
  · exact ne_bs_of_mem hA h
  · rcases List.mem_append.mp h with h | h
    · exact hT a h
    · simp at h; rw [h]; decide

/-- The labeled-heading pattern consumes `\cmd{T}\label{L}` whole, capturing
    exactly the title `T`. -/
theorem matchRun_headingLabel (w T L : List Char)
    (hT : ∀ a ∈ T, a ≠ '\n' ∧ a ≠ '}') (hL : ∀ a ∈ L, a ≠ '\n' ∧ a ≠ '}') :
    matchRun (lits ('\\' :: w) ++
        (.cls isDotChar .starLazy true :: .lit '}' :: .cls isSpaceChar .starGreedy false ::
          (lits labelWord ++ (.cls isDotChar .starLazy false :: [.lit '}']))))
      (('\\' :: w) ++ (T ++ ('}' :: (labelWord ++ (L ++ ['}']))))) =
      some (('\\' :: w) ++ (T ++ ('}' :: (labelWord ++ (L ++ ['}'])))), T, []) := by
  rw [matchRun_lits_append]
  have hL2 : matchRun (.cls isDotChar .starLazy false :: [.lit '}'])
      (L ++ ('}' :: ([] : List Char))) = some (L ++ ['}'], [], []) := by
    have := @matchRun_lazy_lit_scan isDotChar false '}' [] L [] ([], [], [])
      (fun a ha => ⟨by simp [isDotChar]; exact (hL a ha).1, (hL a ha).2⟩)
      (matchRun_nilpat [])
    simpa using this
  have hlab : matchRun (lits labelWord ++ (.cls isDotChar .starLazy false :: [.lit '}']))
      (labelWord ++ (L ++ ['}'])) = some (labelWord ++ (L ++ ['}']), [], []) := by
    rw [show L ++ ['}'] = L ++ ('}' :: ([] : List Char)) from rfl, matchRun_lits_append, hL2]
    simp
  have hws : matchRun (.cls isSpaceChar .starGreedy false ::
        (lits labelWord ++ (.cls isDotChar .starLazy false :: [.lit '}'])))
      (labelWord ++ (L ++ ['}'])) = some (labelWord ++ (L ++ ['}']), [], []) := by
    rw [show labelWord ++ (L ++ ['}']) =
        '\\' :: (['l','a','b','e','l','{'] ++ (L ++ ['}'])) from by simp [labelWord]]
    rw [matchRun_greedy_exit
      (Or.inr ⟨'\\', ['l','a','b','e','l','{'] ++ (L ++ ['}']), rfl, by decide⟩)]
    rw [show ('\\' : Char) :: (['l','a','b','e','l','{'] ++ (L ++ ['}'])) =
        labelWord ++ (L ++ ['}']) from by simp [labelWord]]
    exact hlab
  have hT2 := @matchRun_lazy_lit_scan isDotChar true '}'
      (.cls isSpaceChar .starGreedy false ::
        (lits labelWord ++ (.cls isDotChar .starLazy false :: [.lit '}'])))
      T (labelWord ++ (L ++ ['}'])) (labelWord ++ (L ++ ['}']), [], [])
      (fun a ha => ⟨by simp [isDotChar]; exact (hT a ha).1, (hT a ha).2⟩) hws
  rw [hT2]
  simp

/-- The plain-heading pattern consumes `\cmd{T}` whole, capturing `T`. -/
theorem matchRun_headingPlain (w T : List Char) (hT : ∀ a ∈ T, a ≠ '\n' ∧ a ≠ '}') :
    matchRun (lits ('\\' :: w) ++ (.cls isDotChar .starLazy true :: [.lit '}']))
      (('\\' :: w) ++ (T ++ ['}'])) = some (('\\' :: w) ++ (T ++ ['}']), T, []) := by
  rw [matchRun_lits_append]
  have := @matchRun_lazy_lit_scan isDotChar true '}' [] T [] ([], [], [])
    (fun a ha => ⟨by simp [isDotChar]; exact (hT a ha).1, (hT a ha).2⟩)
    (matchRun_nilpat [])
  rw [show T ++ ['}'] = T ++ ('}' :: ([] : List Char)) from rfl, this]
  simp

/-- On an UNlabeled heading the labeled pattern finds no match at the
    backslash: after the title's closing brace the label part is missing and
    the lazy star backtracks to exhaustion. -/
theorem matchRun_headingLabel_plain_none (w T : List Char)
    (hT : ∀ a ∈ T, a ≠ '\n' ∧ a ≠ '}') :
    matchRun (lits ('\\' :: w) ++
        (.cls isDotChar .starLazy true :: .lit '}' :: .cls isSpaceChar .starGreedy false ::
          (lits labelWord ++ (.cls isDotChar .starLazy false :: [.lit '}']))))
      (('\\' :: w) ++ (T ++ ['}'])) = none := by
  rw [matchRun_lits_append]
  have hKnil : matchRun (.cls isSpaceChar .starGreedy false ::
      (lits labelWord ++ (.cls isDotChar .starLazy false :: [.lit '}']))) [] = none := by
    rw [matchRun_greedy_nil, show labelWord = '\\' :: ['l','a','b','e','l','{'] from rfl,
      lits, List.map_cons, List.cons_append]
    exact matchRun_lit_nil '\\' _
  have := @matchRun_lazy_lit_fail isDotChar true '}'
      (.cls isSpaceChar .starGreedy false ::
        (lits labelWord ++ (.cls isDotChar .starLazy false :: [.lit '}'])))
      (by decide) hKnil T
      (fun a ha => ⟨by simp [isDotChar]; exact (hT a ha).1, (hT a ha).2⟩)
  rw [this]
  rfl

/-- `re.sub` of the labeled-heading rule on `\cmd{T}\label{L}`: the whole
    construct becomes `rep T`. -/
theorem headingLabelSub_core (w : List Char) (rep : List Char → List Char) (T L : List Char)
    (hT : ∀ a ∈ T, a ≠ '\n' ∧ a ≠ '}') (hL : ∀ a ∈ L, a ≠ '\n' ∧ a ≠ '}') :
    subst (lits ('\\' :: w) ++
        (.cls isDotChar .starLazy true :: .lit '}' :: .cls isSpaceChar .starGreedy false ::
          (lits labelWord ++ (.cls isDotChar .starLazy false :: [.lit '}'])))) rep false
      (('\\' :: w) ++ (T ++ ('}' :: (labelWord ++ (L ++ ['}']))))) = rep T := by
  have hm := matchRun_headingLabel w T L hT hL
  rw [List.cons_append] at hm
  rw [subst_eq_substB, List.cons_append, substB_match (Or.inr rfl) hm (by simp), substB_nil]
  simp

/-- `re.sub` of the plain-heading rule on `\cmd{T}`: it becomes `rep T`. -/
theorem headingPlainSub_core (w : List Char) (rep : List Char → List Char) (T : List Char)
    (hT : ∀ a ∈ T, a ≠ '\n' ∧ a ≠ '}') :
    subst (lits ('\\' :: w) ++ (.cls isDotChar .starLazy true :: [.lit '}'])) rep false
      (('\\' :: w) ++ (T ++ ['}'])) = rep T := by
  have hm := matchRun_headingPlain w T hT
  rw [List.cons_append] at hm
  rw [subst_eq_substB, List.cons_append, substB_match (Or.inr rfl) hm (by simp), substB_nil]
  simp

/-- The labeled-heading rule leaves an unlabeled heading `\cmd{T}` unchanged. -/
theorem headingLabelSub_skip_core (w : List Char) (rep : List Char → List Char)
    (T : List Char) (hw : ∀ a ∈ w, a ≠ '\\')
    (hT : ∀ a ∈ T, a ≠ '\n' ∧ a ≠ '}' ∧ a ≠ '\\') :
    subst (lits ('\\' :: w) ++
        (.cls isDotChar .starLazy true :: .lit '}' :: .cls isSpaceChar .starGreedy false ::
          (lits labelWord ++ (.cls isDotChar .starLazy false :: [.lit '}'])))) rep false
      (('\\' :: w) ++ (T ++ ['}'])) = ('\\' :: w) ++ (T ++ ['}']) := by
  have h1 := matchRun_headingLabel_plain_none w T (fun a ha => ⟨(hT a ha).1, (hT a ha).2.1⟩)
  rw [List.cons_append] at h1
  rw [List.cons_append]
  exact subst_id_1seg '\\' (w ++ (T ++ ['}'])) h1
    (fun a ha => headFail_lits (by
      rcases List.mem_append.mp ha with h | h
      · exact hw a h
      · rcases List.mem_append.mp h with h | h
        · exact (hT a h).2.2
        · simp at h; rw [h]; decide))

theorem sectionLabelSub_eq (s : List Char) :
    sectionLabelSub s = subst (lits ('\\' :: ['s','e','c','t','i','o','n','{']) ++
      (.cls isDotChar .starLazy true :: .lit '}' :: .cls isSpaceChar .starGreedy false ::
        (lits labelWord ++ (.cls isDotChar .starLazy false :: [.lit '}']))))
      (fun g => '#' :: ' ' :: g) false s := by
  rw [sectionLabelSub, shape_sectionLabelPat]

theorem sectionSub_eq (s : List Char) :
    sectionSub s = subst (lits ('\\' :: ['s','e','c','t','i','o','n','{']) ++
      (.cls isDotChar .starLazy true :: [.lit '}'])) (fun g => '#' :: ' ' :: g) false s := by
  rw [sectionSub, shape_sectionPat]

theorem subsectionLabelSub_eq (s : List Char) :
    subsectionLabelSub s = subst (lits ('\\' :: ['s','u','b','s','e','c','t','i','o','n','{']) ++
      (.cls isDotChar .starLazy true :: .lit '}' :: .cls isSpaceChar .starGreedy false ::
        (lits labelWord ++ (.cls isDotChar .starLazy false :: [.lit '}']))))
      (fun g => '#' :: '#' :: ' ' :: g) false s := by
  rw [subsectionLabelSub, shape_subsectionLabelPat]

theorem subsectionSub_eq (s : List Char) :
    subsectionSub s = subst (lits ('\\' :: ['s','u','b','s','e','c','t','i','o','n','{']) ++
      (.cls isDotChar .starLazy true :: [.lit '}'])) (fun g => '#' :: '#' :: ' ' :: g) false s := by
  rw [subsectionSub, shape_subsectionPat]

theorem subsubsectionLabelSub_eq (s : List Char) :
    subsubsectionLabelSub s =
      subst (lits ('\\' :: ['s','u','b','s','u','b','s','e','c','t','i','o','n','{']) ++
        (.cls isDotChar .starLazy true :: .lit '}' :: .cls isSpaceChar .starGreedy false ::
          (lits labelWord ++ (.cls isDotChar .starLazy false :: [.lit '}']))))
        (fun g => '#' :: '#' :: '#' :: ' ' :: g) false s := by
  rw [subsubsectionLabelSub, shape_subsubsectionLabelPat]

theorem subsubsectionSub_eq (s : List Char) :
    subsubsectionSub s =
      subst (lits ('\\' :: ['s','u','b','s','u','b','s','e','c','t','i','o','n','{']) ++
        (.cls isDotChar .starLazy true :: [.lit '}']))
        (fun g => '#' :: '#' :: '#' :: ' ' :: g) false s := by
  rw [subsubsectionSub, shape_subsubsectionPat]

theorem sectionLabelSub_noBS (s : List Char) (h : ∀ a ∈ s, a ≠ '\\') :
    sectionLabelSub s = s := by
  rw [sectionLabelSub_eq]; exact subst_id_noBS s h

theorem sectionSub_noBS (s : List Char) (h : ∀ a ∈ s, a ≠ '\\') :
    sectionSub s = s := by
  rw [sectionSub_eq]; exact subst_id_noBS s h

theorem subsectionLabelSub_noBS (s : List Char) (h : ∀ a ∈ s, a ≠ '\\') :
    subsectionLabelSub s = s := by
  rw [subsectionLabelSub_eq]; exact subst_id_noBS s h

theorem subsectionSub_noBS (s : List Char) (h : ∀ a ∈ s, a ≠ '\\') :
    subsectionSub s = s := by
  rw [subsectionSub_eq]; exact subst_id_noBS s h

theorem subsubsectionLabelSub_noBS (s : List Char) (h : ∀ a ∈ s, a ≠ '\\') :
    subsubsectionLabelSub s = s := by
  rw [subsubsectionLabelSub_eq]; exact subst_id_noBS s h

theorem subsubsectionSub_noBS (s : List Char) (h : ∀ a ∈ s, a ≠ '\\') :
    subsubsectionSub s = s := by
  rw [subsubsectionSub_eq]; exact subst_id_noBS s h

/-- C2: for any title `T` and label `L` (containing no newline, brace or
    backslash), the heading stages map the labeled construct `\cmd{T}\label{L}`
    and the unlabeled construct `\cmd{T}` to the SAME output: `# T` for
    `section` (depth 1), `## T` for `subsection` (depth 2), `### T` for
    `subsubsection` (depth 3); the label identifier is fully discarded and the
    title preserved. -/
theorem claim2_labeled_headings (T L : List Char)
    (hT : ∀ a ∈ T, a ≠ '\n' ∧ a ≠ '}' ∧ a ≠ '\\')
    (hL : ∀ a ∈ L, a ≠ '\n' ∧ a ≠ '}' ∧ a ≠ '\\') :
    (headingStages (secWord ++ (T ++ ('}' :: (labelWord ++ (L ++ ['}']))))) =
        '#' :: (' ' :: T) ∧
      headingStages (secWord ++ (T ++ ['}'])) = '#' :: (' ' :: T)) ∧
    (headingStages (subWord ++ (T ++ ('}' :: (labelWord ++ (L ++ ['}']))))) =
        '#' :: ('#' :: (' ' :: T)) ∧
      headingStages (subWord ++ (T ++ ['}'])) = '#' :: ('#' :: (' ' :: T))) ∧
    (headingStages (subsubWord ++ (T ++ ('}' :: (labelWord ++ (L ++ ['}']))))) =
        '#' :: ('#' :: ('#' :: (' ' :: T))) ∧
      headingStages (subsubWord ++ (T ++ ['}'])) = '#' :: ('#' :: ('#' :: (' ' :: T)))) := by
  have hT2 : ∀ a ∈ T, a ≠ '\n' ∧ a ≠ '}' := fun a ha => ⟨(hT a ha).1, (hT a ha).2.1⟩
  have hL2 : ∀ a ∈ L, a ≠ '\n' ∧ a ≠ '}' := fun a ha => ⟨(hL a ha).1, (hL a ha).2.1⟩
  have hTbs : ∀ a ∈ T, a ≠ '\\' := fun a ha => (hT a ha).2.2
  have hhash1 : ∀ a ∈ '#' :: (' ' :: T), a ≠ '\\' :=
    notBS_cons (by decide) (notBS_cons (by decide) hTbs)
  have hhash2 : ∀ a ∈ '#' :: ('#' :: (' ' :: T)), a ≠ '\\' := notBS_cons (by decide) hhash1
  have hhash3 : ∀ a ∈ '#' :: ('#' :: ('#' :: (' ' :: T))), a ≠ '\\' :=
    notBS_cons (by decide) hhash2
  have hlabL : labelWord ++ (L ++ ['}']) =
      '\\' :: (['l','a','b','e','l','{'] ++ (L ++ ['}'])) := by simp [labelWord]
  refine ⟨⟨?_, ?_⟩, ⟨?_, ?_⟩, ⟨?_, ?_⟩⟩
  · -- \section{T}\label{L}
    rw [headingStages]
    rw [show sectionLabelSub (secWord ++ (T ++ ('}' :: (labelWord ++ (L ++ ['}']))))) =
        '#' :: (' ' :: T) from by
      rw [sectionLabelSub_eq]
      exact headingLabelSub_core ['s','e','c','t','i','o','n','{'] _ T L hT2 hL2]
    rw [sectionSub_noBS _ hhash1, subsectionLabelSub_noBS _ hhash1,
      subsectionSub_noBS _ hhash1, subsubsectionLabelSub_noBS _ hhash1,
      subsubsectionSub_noBS _ hhash1]
  · -- \section{T}
    rw [headingStages]
    rw [show sectionLabelSub (secWord ++ (T ++ ['}'])) = secWord ++ (T ++ ['}']) from by
      rw [sectionLabelSub_eq]
      exact headingLabelSub_skip_core ['s','e','c','t','i','o','n','{'] _ T (by decide) hT]
    rw [show sectionSub (secWord ++ (T ++ ['}'])) = '#' :: (' ' :: T) from by
      rw [sectionSub_eq]
      exact headingPlainSub_core ['s','e','c','t','i','o','n','{'] _ T hT2]
    rw [subsectionLabelSub_noBS _ hhash1, subsectionSub_noBS _ hhash1,
      subsubsectionLabelSub_noBS _ hhash1, subsubsectionSub_noBS _ hhash1]
  · -- \subsection{T}\label{L}
    rw [headingStages]
    have hshape : subWord ++ (T ++ ('}' :: (labelWord ++ (L ++ ['}'])))) =
        '\\' :: ((['s','u','b','s','e','c','t','i','o','n','{'] ++ (T ++ ['}'])) ++
          ('\\' :: (['l','a','b','e','l','{'] ++ (L ++ ['}'])))) := by
      simp [subWord, labelWord]
    rw [show sectionLabelSub (subWord ++ (T ++ ('}' :: (labelWord ++ (L ++ ['}']))))) =
        subWord ++ (T ++ ('}' :: (labelWord ++ (L ++ ['}'])))) from by
      rw [sectionLabelSub_eq]
      conv_lhs => rw [hshape]
      conv_rhs => rw [hshape]
      exact subst_id_2seg _ _ _ _ (by simp [lits, matchRun_lit_cons])
        (fun a ha => headFail_lits (notBS_segment (by decide) hTbs a ha))
        (by simp [lits, matchRun_lit_cons])
        (fun a ha => headFail_lits (notBS_segment (by decide)
          (fun x hx => (hL x hx).2.2) a ha))]
    rw [show sectionSub (subWord ++ (T ++ ('}' :: (labelWord ++ (L ++ ['}']))))) =
        subWord ++ (T ++ ('}' :: (labelWord ++ (L ++ ['}'])))) from by
      rw [sectionSub_eq]
      conv_lhs => rw [hshape]
      conv_rhs => rw [hshape]
      exact subst_id_2seg _ _ _ _ (by simp [lits, matchRun_lit_cons])
        (fun a ha => headFail_lits (notBS_segment (by decide) hTbs a ha))
        (by simp [lits, matchRun_lit_cons])
        (fun a ha => headFail_lits (notBS_segment (by decide)
          (fun x hx => (hL x hx).2.2) a ha))]
    rw [show subsectionLabelSub (subWord ++ (T ++ ('}' :: (labelWord ++ (L ++ ['}']))))) =
        '#' :: ('#' :: (' ' :: T)) from by
      rw [subsectionLabelSub_eq]
      exact headingLabelSub_core ['s','u','b','s','e','c','t','i','o','n','{'] _ T L hT2 hL2]
    rw [subsectionSub_noBS _ hhash2, subsubsectionLabelSub_noBS _ hhash2,
      subsubsectionSub_noBS _ hhash2]
  · -- \subsection{T}
    rw [headingStages]
    have hshape : subWord ++ (T ++ ['}']) =
        '\\' :: (['s','u','b','s','e','c','t','i','o','n','{'] ++ (T ++ ['}'])) := by
      simp [subWord]
    rw [show sectionLabelSub (subWord ++ (T ++ ['}'])) = subWord ++ (T ++ ['}']) from by
      rw [sectionLabelSub_eq]
      conv_lhs => rw [hshape]
      conv_rhs => rw [hshape]
      exact subst_id_1seg _ _ (by simp [lits, matchRun_lit_cons])
        (fun a ha => headFail_lits (notBS_segment (by decide) hTbs a ha))]
    rw [show sectionSub (subWord ++ (T ++ ['}'])) = subWord ++ (T ++ ['}']) from by
      rw [sectionSub_eq]
      conv_lhs => rw [hshape]
      conv_rhs => rw [hshape]
      exact subst_id_1seg _ _ (by simp [lits, matchRun_lit_cons])
        (fun a ha => headFail_lits (notBS_segment (by decide) hTbs a ha))]
    rw [show subsectionLabelSub (subWord ++ (T ++ ['}'])) = subWord ++ (T ++ ['}']) from by
      rw [subsectionLabelSub_eq]
      exact headingLabelSub_skip_core ['s','u','b','s','e','c','t','i','o','n','{'] _ T
        (by decide) hT]
    rw [show subsectionSub (subWord ++ (T ++ ['}'])) = '#' :: ('#' :: (' ' :: T)) from by
      rw [subsectionSub_eq]
      exact headingPlainSub_core ['s','u','b','s','e','c','t','i','o','n','{'] _ T hT2]
    rw [subsubsectionLabelSub_noBS _ hhash2, subsubsectionSub_noBS _ hhash2]
  · -- \subsubsection{T}\label{L}
    rw [headingStages]
    have hshape : subsubWord ++ (T ++ ('}' :: (labelWord ++ (L ++ ['}'])))) =
        '\\' :: ((['s','u','b','s','u','b','s','e','c','t','i','o','n','{'] ++ (T ++ ['}'])) ++
          ('\\' :: (['l','a','b','e','l','{'] ++ (L ++ ['}'])))) := by
      simp [subsubWord, labelWord]
    have hv1 : ∀ a ∈ ['s','u','b','s','u','b','s','e','c','t','i','o','n','{'] ++ (T ++ ['}']),
        a ≠ '\\' := notBS_segment (by decide) hTbs
    have hv2 : ∀ a ∈ ['l','a','b','e','l','{'] ++ (L ++ ['}']), a ≠ '\\' :=
      notBS_segment (by decide) (fun x hx => (hL x hx).2.2)
    rw [show sectionLabelSub (subsubWord ++ (T ++ ('}' :: (labelWord ++ (L ++ ['}']))))) =
        subsubWord ++ (T ++ ('}' :: (labelWord ++ (L ++ ['}'])))) from by
      rw [sectionLabelSub_eq]
      conv_lhs => rw [hshape]
      conv_rhs => rw [hshape]
      exact subst_id_2seg _ _ _ _ (by simp [lits, matchRun_lit_cons])
        (fun a ha => headFail_lits (hv1 a ha))
        (by simp [lits, matchRun_lit_cons]) (fun a ha => headFail_lits (hv2 a ha))]
    rw [show sectionSub (subsubWord ++ (T ++ ('}' :: (labelWord ++ (L ++ ['}']))))) =
        subsubWord ++ (T ++ ('}' :: (labelWord ++ (L ++ ['}'])))) from by
      rw [sectionSub_eq]
      conv_lhs => rw [hshape]
      conv_rhs => rw [hshape]
      exact subst_id_2seg _ _ _ _ (by simp [lits, matchRun_lit_cons])
        (fun a ha => headFail_lits (hv1 a ha))
        (by simp [lits, matchRun_lit_cons]) (fun a ha => headFail_lits (hv2 a ha))]
    rw [show subsectionLabelSub (subsubWord ++ (T ++ ('}' :: (labelWord ++ (L ++ ['}']))))) =
        subsubWord ++ (T ++ ('}' :: (labelWord ++ (L ++ ['}'])))) from by
      rw [subsectionLabelSub_eq]
      conv_lhs => rw [hshape]
      conv_rhs => rw [hshape]
      exact subst_id_2seg _ _ _ _ (by simp [lits, matchRun_lit_cons])
        (fun a ha => headFail_lits (hv1 a ha))
        (by simp [lits, matchRun_lit_cons]) (fun a ha => headFail_lits (hv2 a ha))]
    rw [show subsectionSub (subsubWord ++ (T ++ ('}' :: (labelWord ++ (L ++ ['}']))))) =
        subsubWord ++ (T ++ ('}' :: (labelWord ++ (L ++ ['}'])))) from by
      rw [subsectionSub_eq]
      conv_lhs => rw [hshape]
      conv_rhs => rw [hshape]
      exact subst_id_2seg _ _ _ _ (by simp [lits, matchRun_lit_cons])
        (fun a ha => headFail_lits (hv1 a ha))
        (by simp [lits, matchRun_lit_cons]) (fun a ha => headFail_lits (hv2 a ha))]
    rw [show subsubsectionLabelSub (subsubWord ++ (T ++ ('}' :: (labelWord ++ (L ++ ['}']))))) =
        '#' :: ('#' :: ('#' :: (' ' :: T))) from by
      rw [subsubsectionLabelSub_eq]
      exact headingLabelSub_core ['s','u','b','s','u','b','s','e','c','t','i','o','n','{']
        _ T L hT2 hL2]
    rw [subsubsectionSub_noBS _ hhash3]
  · -- \subsubsection{T}
    rw [headingStages]
    have hshape : subsubWord ++ (T ++ ['}']) =
        '\\' :: (['s','u','b','s','u','b','s','e','c','t','i','o','n','{'] ++ (T ++ ['}'])) := by
      simp [subsubWord]
    have hv1 : ∀ a ∈ ['s','u','b','s','u','b','s','e','c','t','i','o','n','{'] ++ (T ++ ['}']),
        a ≠ '\\' := notBS_segment (by decide) hTbs
    rw [show sectionLabelSub (subsubWord ++ (T ++ ['}'])) = subsubWord ++ (T ++ ['}']) from by
      rw [sectionLabelSub_eq]
      conv_lhs => rw [hshape]
      conv_rhs => rw [hshape]
      exact subst_id_1seg _ _ (by simp [lits, matchRun_lit_cons])
        (fun a ha => headFail_lits (hv1 a ha))]
    rw [show sectionSub (subsubWord ++ (T ++ ['}'])) = subsubWord ++ (T ++ ['}']) from by
      rw [sectionSub_eq]
      conv_lhs => rw [hshape]
      conv_rhs => rw [hshape]
      exact subst_id_1seg _ _ (by simp [lits, matchRun_lit_cons])
        (fun a ha => headFail_lits (hv1 a ha))]
    rw [show subsectionLabelSub (subsubWord ++ (T ++ ['}'])) = subsubWord ++ (T ++ ['}']) from by
      rw [subsectionLabelSub_eq]
      conv_lhs => rw [hshape]
      conv_rhs => rw [hshape]
      exact subst_id_1seg _ _ (by simp [lits, matchRun_lit_cons])
        (fun a ha => headFail_lits (hv1 a ha))]
    rw [show subsectionSub (subsubWord ++ (T ++ ['}'])) = subsubWord ++ (T ++ ['}']) from by
      rw [subsectionSub_eq]
      conv_lhs => rw [hshape]
      conv_rhs => rw [hshape]
      exact subst_id_1seg _ _ (by simp [lits, matchRun_lit_cons])
        (fun a ha => headFail_lits (hv1 a ha))]
    rw [show subsubsectionLabelSub (subsubWord ++ (T ++ ['}'])) =
        subsubWord ++ (T ++ ['}']) from by
      rw [subsubsectionLabelSub_eq]
      exact headingLabelSub_skip_core ['s','u','b','s','u','b','s','e','c','t','i','o','n','{']
        _ T (by decide) hT]
    rw [show subsubsectionSub (subsubWord ++ (T ++ ['}'])) =
        '#' :: ('#' :: ('#' :: (' ' :: T))) from by
      rw [subsubsectionSub_eq]
      exact headingPlainSub_core ['s','u','b','s','u','b','s','e','c','t','i','o','n','{']
        _ T hT2]

/-- Witness for C2 at title `Intro` and label `sec:intro`. -/
theorem claim2_labeled_headings_witness :
    headingStages (secWord ++ (['I','n','t','r','o'] ++ ('}' :: (labelWord ++
        (['s','e','c',':','i','n','t','r','o'] ++ ['}']))))) =
      '#' :: (' ' :: ['I','n','t','r','o']) ∧
    headingStages (secWord ++ (['I','n','t','r','o'] ++ ['}'])) =
      '#' :: (' ' :: ['I','n','t','r','o']) :=
  (claim2_labeled_headings ['I','n','t','r','o'] ['s','e','c',':','i','n','t','r','o']
    (by decide) (by decide)).1

/-! ### C6: comment stripping -/

theorem mem_of_getLast? : ∀ (l : List Char) (c : Char), l.getLast? = some c → c ∈ l := by
  intro l
  induction l with
  | nil => intro c h; simp at h
  | cons a l ih =>
    intro c h
    cases l with
    | nil => simp at h; simp [h]
    | cons b t =>
      rw [List.getLast?_cons_cons] at h
      exact List.mem_cons_of_mem a (ih c h)

/-- C6 counterexample: the comment stage strips from an ESCAPED `%` too.
    On the line `a\%b` the claim predicts no removal (the marker is preceded
    by a backslash), but the stage yields `a\` — the regex `%.*$` has no
    escape awareness. -/
theorem claim6_counterexample :
    commentSub ['a','\\','%','b'] = ['a','\\'] ∧
    (['a','\\'] : List Char) ≠ ['a','\\','%','b'] := ⟨by decide, by decide⟩

/-- C6 (amended): per line, the comment stage removes from the FIRST `%` —
    escaped or not — through the end of the line; the line break itself is
    kept and later lines are processed the same way, and a final line with a
    `%` is truncated at it. -/
theorem claim6_comment_stage (u v w : List Char)
    (hu : ∀ a ∈ u, a ≠ '%') (hv : ∀ a ∈ v, a ≠ '\n') :
    commentSub (u ++ ('%' :: (v ++ ('\n' :: w)))) = u ++ ('\n' :: commentSub w) ∧
    commentSub (u ++ ('%' :: v)) = u := by
  have hwalku : ∀ a ∈ u, headFail commentPat a := fun a ha => headFail_lit (hu a ha)
  constructor
  · have heol : matchRun [Item.eol] ('\n' :: w) = some ([], [], '\n' :: w) := by
      rw [matchRun_eol, if_pos (Or.inr (by simp)), matchRun_nilpat]
    have hgreedy : matchRun (.cls isDotChar .starGreedy false :: [Item.eol])
        (v ++ ('\n' :: w)) = some (v, [], '\n' :: w) := by
      have := @matchRun_greedy_scan isDotChar false [Item.eol] v ('\n' :: w)
        ([], [], '\n' :: w) (fun a ha => by simp [isDotChar]; exact hv a ha)
        (Or.inr ⟨'\n', w, rfl, by decide⟩) heol
      simpa using this
    have hm : matchRun commentPat ('%' :: (v ++ ('\n' :: w))) =
        some ('%' :: v, [], '\n' :: w) := by
      show matchRun (.lit '%' :: (.cls isDotChar .starGreedy false :: [Item.eol])) _ = _
      rw [matchRun_lit_cons, if_pos rfl, hgreedy]
      rfl
    have hnl : matchRun commentPat ('\n' :: w) = none :=
      @headFail_lit '%' [Item.cls isDotChar Quant.starGreedy false, Item.eol] '\n'
        (by decide) w
    rw [commentSub, subst_eq_substB, substB_walk u hwalku,
      substB_match (Or.inl rfl) hm (by simp), substB_emit hnl]
    simp [erase, commentSub, subst_eq_substB]
  · have heol : matchRun [Item.eol] ([] : List Char) = some ([], [], []) := by
      rw [matchRun_eol, if_pos (Or.inl rfl), matchRun_nilpat]
    have hgreedy : matchRun (.cls isDotChar .starGreedy false :: [Item.eol])
        v = some (v, [], []) := by
      have := @matchRun_greedy_scan isDotChar false [Item.eol] v []
        ([], [], []) (fun a ha => by simp [isDotChar]; exact hv a ha) (Or.inl rfl) heol
      simpa using this
    have hm : matchRun commentPat ('%' :: v) = some ('%' :: v, [], []) := by
      show matchRun (.lit '%' :: (.cls isDotChar .starGreedy false :: [Item.eol])) _ = _
      rw [matchRun_lit_cons, if_pos rfl, hgreedy]
      rfl
    rw [commentSub, subst_eq_substB, substB_walk u hwalku,
      substB_match (Or.inl rfl) hm (by simp), substB_nil]
    simp [erase]

/-- Witness for C6's amended statement on the line `a%b` followed by `c`,
    and on the final line `x%y`. -/
theorem claim6_comment_stage_witness :
    commentSub (['a'] ++ ('%' :: (['b'] ++ ('\n' :: ['c'])))) =
      ['a'] ++ ('\n' :: commentSub ['c']) ∧
    commentSub (['x'] ++ ('%' :: ['y'])) = ['x'] :=
  ⟨(claim6_comment_stage ['a'] ['b'] ['c'] (by decide) (by decide)).1,
   (claim6_comment_stage ['x'] ['y'] [] (by decide) (by decide)).2⟩

/-! ### C8: whitespace normalization -/

/-- The three whitespace stages (source lines 102-104), in source order. -/
def wsStages (s : List Char) : List Char :=
  trailingWsSub (leadingWsSub (blankLinesSub s))

theorem ne_nl_of_nonWs {a : Char} (h : isSpaceChar a = false) : a ≠ '\n' := by
  intro hEq; rw [hEq] at h; simp [isSpaceChar] at h

theorem beq_nl_false_of_nonWs {a : Char} (h : isSpaceChar a = false) : (a == '\n') = false := by
  simpa using ne_nl_of_nonWs h

/-- The blank-line pattern `\n\s*\n\s*\n` consumes a run of four newlines
    whole (greedy with backtracking), when a non-whitespace character follows. -/
theorem matchRun_blank4 (q : Char) (p2' : List Char) (hq : isSpaceChar q = false) :
    matchRun blankLinesPat ('\n' :: ('\n' :: ('\n' :: ('\n' :: (q :: p2'))))) =
      some (['\n','\n','\n','\n'], [], q :: p2') := by
  have hqn : q ≠ '\n' := ne_nl_of_nonWs hq
  have ha : matchRun [Item.lit '\n'] (q :: p2') = none := by
    rw [matchRun_lit_cons, if_neg hqn]
  have hb : matchRun [Item.cls isSpaceChar .starGreedy false, Item.lit '\n']
      (q :: p2') = none := by
    rw [matchRun_greedy_cons_stop hq]
    exact ha
  have hc : matchRun [Item.cls isSpaceChar .starGreedy false, Item.lit '\n']
      ('\n' :: (q :: p2')) = some (['\n'], [], q :: p2') := by
    rw [matchRun_greedy_cons_back (by decide) hb, matchRun_lit_cons, if_pos rfl,
      matchRun_nilpat]
    rfl
  have hd : matchRun [Item.lit '\n', Item.cls isSpaceChar .starGreedy false, Item.lit '\n']
      (q :: p2') = none := by
    rw [matchRun_lit_cons, if_neg hqn]
  have he : matchRun [Item.lit '\n', Item.cls isSpaceChar .starGreedy false, Item.lit '\n']
      ('\n' :: (q :: p2')) = none := by
    rw [matchRun_lit_cons, if_pos rfl, hb]
    rfl
  have hf : matchRun [Item.lit '\n', Item.cls isSpaceChar .starGreedy false, Item.lit '\n']
      ('\n' :: ('\n' :: (q :: p2'))) = some (['\n','\n'], [], q :: p2') := by
    rw [matchRun_lit_cons, if_pos rfl, hc]
    rfl
  have hg3 : matchRun (Item.cls isSpaceChar .starGreedy false ::
      [Item.lit '\n', Item.cls isSpaceChar .starGreedy false, Item.lit '\n'])
      (q :: p2') = none := by
    rw [matchRun_greedy_cons_stop hq]
    exact hd
  have hg2 : matchRun (Item.cls isSpaceChar .starGreedy false ::
      [Item.lit '\n', Item.cls isSpaceChar .starGreedy false, Item.lit '\n'])
      ('\n' :: (q :: p2')) = none := by
    rw [matchRun_greedy_cons_back (by decide) hg3]
    exact he
  have hg1 : matchRun (Item.cls isSpaceChar .starGreedy false ::
      [Item.lit '\n', Item.cls isSpaceChar .starGreedy false, Item.lit '\n'])
      ('\n' :: ('\n' :: (q :: p2'))) = some (['\n','\n'], [], q :: p2') := by
    rw [matchRun_greedy_cons_back (by decide) hg2]
    exact hf
  have hg : matchRun (Item.cls isSpaceChar .starGreedy false ::
      [Item.lit '\n', Item.cls isSpaceChar .starGreedy false, Item.lit '\n'])
      ('\n' :: ('\n' :: ('\n' :: (q :: p2')))) = some (['\n','\n','\n'], [], q :: p2') := by
    rw [matchRun_greedy_cons_pos (by decide) hg1]
    simp
  show matchRun (Item.lit '\n' :: (Item.cls isSpaceChar .starGreedy false ::
      [Item.lit '\n', Item.cls isSpaceChar .starGreedy false, Item.lit '\n'])) _ = _
  rw [matchRun_lit_cons, if_pos rfl, hg]
  rfl

theorem blankLinesSub_4nl (p1 p2 : List Char)
    (h1 : ∀ a ∈ p1, isSpaceChar a = false) (h2 : ∀ a ∈ p2, isSpaceChar a = false)
    (hp2 : p2 ≠ []) :
    blankLinesSub (p1 ++ ('\n' :: ('\n' :: ('\n' :: ('\n' :: p2))))) =
      p1 ++ ('\n' :: ('\n' :: p2)) := by
  cases p2 with
  | nil => exact absurd rfl hp2
  | cons q p2' =>
    have hm := matchRun_blank4 q p2' (h2 q (by simp))
    rw [blankLinesSub, subst_eq_substB]
    have hwalk := @substB_walk blankLinesPat (fun _ => ['\n','\n']) false p1
      (fun a ha => headFail_lit (ne_nl_of_nonWs (h1 a ha))) true
      ('\n' :: ('\n' :: ('\n' :: ('\n' :: (q :: p2')))))
    rw [hwalk, substB_match (Or.inl rfl) hm (by simp),
      @substB_id_of_headFail blankLinesPat (fun _ => ['\n','\n']) false (q :: p2')
        (fun a ha => headFail_lit (ne_nl_of_nonWs (h2 a ha)))]
    simp

theorem leadingWsSub_blank (p1 p2 : List Char)
    (h1 : ∀ a ∈ p1, isSpaceChar a = false) (h2 : ∀ a ∈ p2, isSpaceChar a = false)
    (hp1 : p1 ≠ []) (hp2 : p2 ≠ []) :
    leadingWsSub (p1 ++ ('\n' :: ('\n' :: p2))) = p1 ++ ('\n' :: p2) := by
  cases p2 with
  | nil => exact absurd rfl hp2
  | cons q p2' =>
    have hbol : bolAfter p1 true = false := by
      cases hgl : p1.getLast? with
      | none => exact absurd (List.getLast?_eq_none_iff.mp hgl) hp1
      | some c =>
        have hmem := mem_of_getLast? p1 c hgl
        rw [bolAfter, hgl]
        exact beq_nl_false_of_nonWs (h1 c hmem)
    have hm2 : matchRun leadingWsPat ('\n' :: (q :: p2')) = some (['\n'], [], q :: p2') := by
      show matchRun (Item.cls isSpaceChar .plusGreedy false :: []) _ = _
      rw [matchRun_plus_cons, if_pos (by decide),
        matchRun_greedy_exit (Or.inr ⟨q, p2', rfl, h2 q (by simp)⟩), matchRun_nilpat]
      rfl
    rw [leadingWsSub, subst_eq_substB]
    have hwalk := @substB_walk leadingWsPat erase true p1
      (fun a ha => headFail_plus (h1 a ha)) true ('\n' :: ('\n' :: (q :: p2')))
    rw [hwalk, hbol, substB_skip, show (('\n' : Char) == '\n') = true from by decide,
      substB_match (Or.inr rfl) hm2 (by simp),
      @substB_id_of_headFail leadingWsPat erase true (q :: p2')
        (fun a ha => headFail_plus (h2 a ha))]
    simp [erase]

theorem trailingWsSub_id_1nl (p1 p2 : List Char)
    (h1 : ∀ a ∈ p1, isSpaceChar a = false) (h2 : ∀ a ∈ p2, isSpaceChar a = false)
    (hp2 : p2 ≠ []) :
    trailingWsSub (p1 ++ ('\n' :: p2)) = p1 ++ ('\n' :: p2) := by
  cases p2 with
  | nil => exact absurd rfl hp2
  | cons q p2' =>
    have hnl : matchRun trailingWsPat ('\n' :: (q :: p2')) = none := by
      show matchRun (Item.cls isSpaceChar .plusGreedy false :: [Item.eol]) _ = none
      rw [matchRun_plus_cons, if_pos (by decide),
        matchRun_greedy_exit (Or.inr ⟨q, p2', rfl, h2 q (by simp)⟩),
        matchRun_eol, if_neg (by
          simp
          exact ne_nl_of_nonWs (h2 q (by simp)))]
      rfl
    rw [trailingWsSub, subst_eq_substB]
    have hwalk := @substB_walk trailingWsPat erase false p1
      (fun a ha => headFail_plus (h1 a ha)) true ('\n' :: (q :: p2'))
    rw [hwalk, substB_emit hnl,
      @substB_id_of_headFail trailingWsPat erase false (q :: p2')
        (fun a ha => headFail_plus (h2 a ha))]

/-- C8 (amended): stage `\n\s*\n\s*\n → \n\n` collapses a blank-line run to
    one blank line, but the per-line leading-whitespace strip then consumes
    the remaining blank line's own newline (it is leading whitespace of that
    line), and the trailing strip leaves the result alone: two paragraphs
    separated by three blank lines end up on consecutive lines with no blank
    line between them. -/
theorem claim8_ws_stage (p1 p2 : List Char)
    (h1 : ∀ a ∈ p1, isSpaceChar a = false) (h2 : ∀ a ∈ p2, isSpaceChar a = false)
    (hp1 : p1 ≠ []) (hp2 : p2 ≠ []) :
    wsStages (p1 ++ ('\n' :: ('\n' :: ('\n' :: ('\n' :: p2))))) = p1 ++ ('\n' :: p2) := by
  rw [wsStages, blankLinesSub_4nl p1 p2 h1 h2 hp2, leadingWsSub_blank p1 p2 h1 h2 hp1 hp2,
    trailingWsSub_id_1nl p1 p2 h1 h2 hp2]

/-- Witness for C8's amended statement at the scenario's paragraphs. -/
theorem claim8_ws_stage_witness :
    wsStages (['p','a','r','a','1'] ++ ('\n' :: ('\n' :: ('\n' :: ('\n' ::
        ['p','a','r','a','2']))))) = ['p','a','r','a','1'] ++ ('\n' :: ['p','a','r','a','2']) :=
  claim8_ws_stage ['p','a','r','a','1'] ['p','a','r','a','2']
    (by decide) (by decide) (by decide) (by decide)

/-! ### C10: no command token survives -/

/-- Whether the first character is an ASCII letter. -/
def headLetter (l : List Char) : Bool :=
  match l.head? with
  | some c => isAsciiLetter c
  | none => false

/-- A greedy star with empty continuation always matches, consuming a maximal
    run: what remains starts with a character outside the class (or is empty). -/
theorem matchRun_greedyNil_total (p : Char → Bool) : ∀ u : List Char,
    ∃ xs rest, matchRun (.cls p .starGreedy false :: []) u = some (xs, [], rest) ∧
      (rest = [] ∨ ∃ r0 t, rest = r0 :: t ∧ p r0 = false) := by
  intro u
  induction u with
  | nil =>
    refine ⟨[], [], ?_, Or.inl rfl⟩
    rw [matchRun_greedy_nil, matchRun_nilpat]
  | cons c u' ih =>
    obtain ⟨xs, rest, hm, hrest⟩ := ih
    by_cases hpc : p c
    · refine ⟨c :: xs, rest, ?_, hrest⟩
      rw [matchRun_greedy_cons_pos hpc hm]
      simp
    · refine ⟨[], c :: u', ?_, Or.inr ⟨c, u', rfl, by simpa using hpc⟩⟩
      rw [matchRun_greedy_cons_stop (by simpa using hpc), matchRun_nilpat]

/-- Shape of a successful match of the bare-command catch-all: the consumed
    text starts with the backslash, and the rest cannot start with a letter
    (the greedy `[a-zA-Z]+` is maximal). -/
theorem catchBare_match_shape {u con cap rest : List Char}
    (h : matchRun catchBarePat u = some (con, cap, rest)) :
    (∃ cs, con = '\\' :: cs) ∧
      (rest = [] ∨ ∃ r0 t, rest = r0 :: t ∧ isAsciiLetter r0 = false) := by
  cases u with
  | nil =>
    rw [show catchBarePat = .lit '\\' :: [.cls isAsciiLetter .plusGreedy false] from rfl,
      matchRun_lit_nil] at h
    simp at h
  | cons c u' =>
    rw [show catchBarePat = .lit '\\' :: [.cls isAsciiLetter .plusGreedy false] from rfl,
      matchRun_lit_cons] at h
    by_cases hc : c = '\\'
    · rw [if_pos hc] at h
      cases u' with
      | nil => rw [matchRun_plus_nil] at h; simp at h
      | cons a u'' =>
        rw [matchRun_plus_cons] at h
        by_cases hla : isAsciiLetter a
        · rw [if_pos hla] at h
          obtain ⟨xs, rest', hm, hrest⟩ := matchRun_greedyNil_total isAsciiLetter u''
          rw [hm] at h
          simp at h
          obtain ⟨h1, _, h3⟩ := h
          subst hc
          refine ⟨⟨a :: xs, h1.symm⟩, ?_⟩
          rw [← h3]
          exact hrest
        · rw [if_neg hla] at h; simp at h
    · rw [if_neg hc] at h; simp at h

/-- When the bare-command catch-all has no match at a backslash, the next
    character is not a letter. -/
theorem catchBare_none_shape {s' : List Char}
    (h : matchRun catchBarePat ('\\' :: s') = none) :
    s' = [] ∨ ∃ a t, s' = a :: t ∧ isAsciiLetter a = false := by
  cases s' with
  | nil => exact Or.inl rfl
  | cons a t =>
    by_cases hla : isAsciiLetter a
    · exfalso
      obtain ⟨xs, rest', hm, _⟩ := matchRun_greedyNil_total isAsciiLetter t
      rw [show catchBarePat = .lit '\\' :: [.cls isAsciiLetter .plusGreedy false] from rfl,
        matchRun_lit_cons, if_pos rfl, matchRun_plus_cons, if_pos hla, hm] at h
      simp at h
    · exact Or.inr ⟨a, t, rfl, by simpa using hla⟩

/-- Driver invariant for the bare-command catch-all: the output has no
    backslash-letter pair, and its first character is a letter only if the
    input's is. -/
theorem catchBare_inv : ∀ (f : Nat) (b : Bool) (s : List Char), s.length < f →
    noCmdTok (substAux catchBarePat erase false f b s) = true ∧
    (headLetter (substAux catchBarePat erase false f b s) = true →
      headLetter s = true) := by
  intro f
  induction f with
  | zero => intro b s h; exact absurd h (Nat.not_lt_zero _)
  | succ f ih =>
    intro b s hs
    cases s with
    | nil => rw [substAux_nil]; exact ⟨rfl, fun h => h⟩
    | cons c s' =>
      cases hm : matchRun catchBarePat (c :: s') with
      | none =>
        rw [substAux_cons_emit hm]
        have ihs := ih (c == '\n') s' (by simp at hs; omega)
        constructor
        · cases hout : substAux catchBarePat erase false f (c == '\n') s' with
          | nil => simp [noCmdTok]
          | cons o t =>
            rw [hout] at ihs
            have h2 : noCmdTok (o :: t) = true := ihs.1
            have hpair : (c == '\\' && isAsciiLetter o) = false := by
              by_cases hc : c = '\\'
              · subst hc
                by_cases hlo : isAsciiLetter o
                · exfalso
                  have hhead := ihs.2 (by simp [headLetter, hlo])
                  rcases catchBare_none_shape hm with h' | ⟨a, t', ha, hfa⟩
                  · rw [h'] at hhead; simp [headLetter] at hhead
                  · rw [ha] at hhead
                    simp [headLetter, hfa] at hhead
                · simp [hlo]
              · have : (c == '\\') = false := by simpa using hc
                simp [this]
            simp [noCmdTok, hpair, h2]
        · intro h
          simp [headLetter] at h ⊢
          exact h
      | some r =>
        obtain ⟨con, cap, rest⟩ := r
        obtain ⟨⟨cs, hcon⟩, hrest⟩ := catchBare_match_shape hm
        have hconne : con ≠ [] := by rw [hcon]; simp
        rw [substAux_cons_match (Or.inl rfl) hm hconne]
        have hlen : rest.length ≤ s'.length := by
          have hc2 := matchRun_consumed hm
          have : con.length + rest.length = s'.length + 1 := by
            rw [← List.length_append, hc2]; simp
          have : 1 ≤ con.length := by rw [hcon]; simp
          omega
        have ihr := ih (lastIsNL con) rest (by simp at hs; omega)
        constructor
        · simpa [erase] using ihr.1
        · intro h
          exfalso
          have hl := ihr.2 (by simpa [erase] using h)
          rcases hrest with h' | ⟨r0, t, hr, hfr⟩
          · rw [h'] at hl; simp [headLetter] at hl
          · rw [hr] at hl; simp [headLetter, hfr] at hl

theorem noCmdTok_tail {a : Char} {l : List Char} (h : noCmdTok (a :: l) = true) :
    noCmdTok l = true := by
  cases l with
  | nil => rfl
  | cons b t =>
    rw [noCmdTok] at h
    exact (Bool.and_eq_true_iff.mp h).2

theorem noCmdTok_append_left : ∀ (l1 l2 : List Char),
    noCmdTok (l1 ++ l2) = true → noCmdTok l1 = true := by
  intro l1
  induction l1 with
  | nil => intro l2 _; rfl
  | cons a t ih =>
    intro l2 h
    cases t with
    | nil => rfl
    | cons b t' =>
      simp only [List.cons_append] at h
      rw [noCmdTok] at h ⊢
      have h' := Bool.and_eq_true_iff.mp h
      rw [h'.1]
      have := ih l2 (by simpa using h'.2)
      simpa using this

theorem noCmdTok_append_right : ∀ (l1 l2 : List Char),
    noCmdTok (l1 ++ l2) = true → noCmdTok l2 = true := by
  intro l1
  induction l1 with
  | nil => intro l2 h; simpa using h
  | cons a t ih =>
    intro l2 h
    simp only [List.cons_append] at h
    exact ih l2 (noCmdTok_tail h)

/-- `str.strip()` keeps a contiguous middle of the text, so it cannot create
    a backslash-letter pair. -/
theorem noCmdTok_stripBoth {Y : List Char} (h : noCmdTok Y = true) :
    noCmdTok (stripBoth Y) = true := by
  rw [stripBoth]
  have h1 : noCmdTok (Y.dropWhile isSpaceChar) = true :=
    noCmdTok_append_right (Y.takeWhile isSpaceChar) _
      (by rw [List.takeWhile_append_dropWhile]; exact h)
  apply noCmdTok_append_left _
    ((Y.dropWhile isSpaceChar).reverse.takeWhile isSpaceChar).reverse
  have hdec : ((Y.dropWhile isSpaceChar).reverse.dropWhile isSpaceChar).reverse ++
      ((Y.dropWhile isSpaceChar).reverse.takeWhile isSpaceChar).reverse =
      Y.dropWhile isSpaceChar := by
    rw [← List.reverse_append, List.takeWhile_append_dropWhile, List.reverse_reverse]
  rw [hdec]
  exact h1

/-- C10: for every input, the converted output contains no backslash
    immediately followed by an ASCII letter: the final bare-command catch-all
    `\\[a-zA-Z]+` (line 108) removes every such token, removals cannot create
    a new one (the letter run is consumed maximally), and the final
    `strip()` only trims the ends. -/
theorem claim10_no_command_tokens (s : List Char) : noCmdTok (processLatex s) = true := by
  have hAll : ∀ X : List Char, noCmdTok (stripBoth (catchBareSub X)) = true := by
    intro X
    apply noCmdTok_stripBoth
    exact (catchBare_inv (X.length + 1) true X (Nat.lt_succ_self _)).1
  exact hAll _

/-! ### C9: idempotence on clean output -/

/-- No whitespace character adjacent to a newline, anywhere in the text. -/
def pairsOK : List Char → Bool
  | a :: b :: t =>
      (!(a == '\n' && isSpaceChar b)) && ((!(isSpaceChar a && b == '\n')) && pairsOK (b :: t))
  | _ => true

/-- First character (if any) is not whitespace. -/
def headOK (s : List Char) : Bool :=
  match s.head? with
  | some c => !isSpaceChar c
  | none => true

/-- Last character (if any) is not whitespace. -/
def lastOK (s : List Char) : Bool :=
  match s.getLast? with
  | some c => !isSpaceChar c
  | none => true

theorem pairsOK_tail {a : Char} {l : List Char} (h : pairsOK (a :: l) = true) :
    pairsOK l = true := by
  cases l with
  | nil => rfl
  | cons b t =>
    rw [pairsOK] at h
    exact (Bool.and_eq_true_iff.mp (Bool.and_eq_true_iff.mp h).2).2

theorem pairs_nl_next {a b : Char} {t : List Char} (h : pairsOK (a :: (b :: t)) = true)
    (ha : a = '\n') : isSpaceChar b = false := by
  rw [pairsOK] at h
  have h1 := (Bool.and_eq_true_iff.mp h).1
  rw [ha] at h1
  simpa using h1

theorem pairs_ws_next {a b : Char} {t : List Char} (h : pairsOK (a :: (b :: t)) = true)
    (ha : isSpaceChar a = true) : b ≠ '\n' := by
  rw [pairsOK] at h
  have h1 := (Bool.and_eq_true_iff.mp (Bool.and_eq_true_iff.mp h).2).1
  rw [ha] at h1
  simpa using h1

theorem lastOK_tail {a : Char} {l : List Char} (h : lastOK (a :: l) = true) :
    lastOK l = true := by
  cases l with
  | nil => rfl
  | cons b t =>
    rw [lastOK] at h ⊢
    rw [List.getLast?_cons_cons] at h
    exact h

/-- Any pattern whose first item is a fixed literal is inert on a text that
    never contains that literal. -/
theorem headFail_headLit {pat : List Item} {c₀ : Char} (hpat : pat.head? = some (.lit c₀))
    {a : Char} (h : a ≠ c₀) : headFail pat a := by
  intro u
  cases pat with
  | nil => simp at hpat
  | cons it ps =>
    simp at hpat
    rw [hpat]
    exact headFail_lit h u

theorem subst_id_headLit {pat : List Item} {rep : List Char → List Char} {anc : Bool}
    (c₀ : Char) (hpat : pat.head? = some (.lit c₀)) (s : List Char)
    (h : ∀ a ∈ s, a ≠ c₀) : subst pat rep anc s = s :=
  subst_id_of_headFail (fun a ha => headFail_headLit hpat (h a ha))

/-- A pattern `lit c₀ :: lit c₁ :: P` is inert on a text free of `c₁`. -/
theorem substB_id_secondLit {c₀ c₁ : Char} {P : List Item} {rep : List Char → List Char}
    {anc : Bool} : ∀ (s : List Char) (b : Bool), (∀ a ∈ s, a ≠ c₁) →
    substB (.lit c₀ :: (.lit c₁ :: P)) rep anc b s = s := by
  intro s
  induction s with
  | nil => intro b _; rfl
  | cons a s' ih =>
    intro b h
    have hnone : matchRun (.lit c₀ :: (.lit c₁ :: P)) (a :: s') = none := by
      rw [matchRun_lit_cons]
      by_cases hac : a = c₀
      · rw [if_pos hac]
        cases s' with
        | nil => rw [matchRun_lit_nil]; rfl
        | cons b' t =>
          rw [matchRun_lit_cons, if_neg (h b' (by simp))]
          rfl
      · rw [if_neg hac]
    rw [substB_emit hnone, ih (a == '\n') (fun x hx => h x (by simp [hx]))]

/-- The blank-line-collapsing pattern is inert on whitespace-normal text:
    its match needs a second newline-or-space right after a newline. -/
theorem substB_id_blank : ∀ (s : List Char) (b : Bool), pairsOK s = true →
    lastOK s = true → substB blankLinesPat (fun _ => ['\n','\n']) false b s = s := by
  intro s
  induction s with
  | nil => intro b _ _; rfl
  | cons a s' ih =>
    intro b hpairs hlast
    have hnone : matchRun blankLinesPat (a :: s') = none := by
      show matchRun (Item.lit '\n' :: (Item.cls isSpaceChar .starGreedy false ::
        [Item.lit '\n', Item.cls isSpaceChar .starGreedy false, Item.lit '\n'])) _ = none
      rw [matchRun_lit_cons]
      by_cases han : a = '\n'
      · rw [if_pos han]
        cases s' with
        | nil =>
          exfalso
          rw [han] at hlast
          simp [lastOK, isSpaceChar] at hlast
        | cons b' t =>
          have hbw : isSpaceChar b' = false := pairs_nl_next hpairs han
          rw [matchRun_greedy_cons_stop hbw, matchRun_lit_cons,
            if_neg (ne_nl_of_nonWs hbw)]
          rfl
      · rw [if_neg han]
    rw [substB_emit hnone,
      ih (a == '\n') (pairsOK_tail hpairs) (lastOK_tail hlast)]

/-- The `^\s+` (MULTILINE) strip is inert on whitespace-normal text: every
    beginning-of-line position carries a non-whitespace character. -/
theorem substB_id_leadWs : ∀ (s : List Char) (b : Bool), pairsOK s = true →
    lastOK s = true → (b = true → headOK s = true) →
    substB leadingWsPat erase true b s = s := by
  intro s
  induction s with
  | nil => intro b _ _ _; rfl
  | cons a s' ih =>
    intro b hpairs hlast hbol
    have hnext : (a == '\n') = true → headOK s' = true := by
      intro han
      have han' : a = '\n' := by simpa using han
      cases s' with
      | nil => rfl
      | cons b' t =>
        have := pairs_nl_next hpairs han'
        simp [headOK, this]
    cases b with
    | true =>
      have haw : isSpaceChar a = false := by
        have := hbol rfl
        simpa [headOK] using this
      have hnone : matchRun leadingWsPat (a :: s') = none := by
        show matchRun (Item.cls isSpaceChar .plusGreedy false :: []) _ = none
        rw [matchRun_plus_cons, if_neg (by simp [haw])]
      rw [substB_emit hnone, ih (a == '\n') (pairsOK_tail hpairs) (lastOK_tail hlast) hnext]
    | false =>
      rw [substB_skip, ih (a == '\n') (pairsOK_tail hpairs) (lastOK_tail hlast) hnext]

/-- Inside a whitespace run of normal text no position satisfies `\s+$`:
    runs never touch a newline or the end of the text. -/
theorem trail_run_none : ∀ (u : List Char) (prev : Char), isSpaceChar prev = true →
    pairsOK (prev :: u) = true → lastOK (prev :: u) = true →
    matchRun (.cls isSpaceChar .starGreedy false :: [Item.eol]) u = none := by
  intro u
  induction u with
  | nil =>
    intro prev hws _ hlast
    exfalso
    simp [lastOK, hws] at hlast
  | cons d w ih =>
    intro prev hws hpairs hlast
    have hdn : d ≠ '\n' := pairs_ws_next hpairs hws
    by_cases hd : isSpaceChar d
    · have hin := ih d hd (pairsOK_tail hpairs) (lastOK_tail hlast)
      rw [matchRun_greedy_cons_back hd hin, matchRun_eol,
        if_neg (by simp; exact hdn)]
    · rw [matchRun_greedy_cons_stop (by simpa using hd), matchRun_eol,
        if_neg (by simp; exact hdn)]

/-- The `\s+$` (MULTILINE) strip is inert on whitespace-normal text. -/
theorem substB_id_trailWs : ∀ (s : List Char) (b : Bool), pairsOK s = true →
    lastOK s = true → substB trailingWsPat erase false b s = s := by
  intro s
  induction s with
  | nil => intro b _ _; rfl
  | cons a s' ih =>
    intro b hpairs hlast
    have hnone : matchRun trailingWsPat (a :: s') = none := by
      show matchRun (Item.cls isSpaceChar .plusGreedy false :: [Item.eol]) _ = none
      rw [matchRun_plus_cons]
      by_cases ha : isSpaceChar a
      · rw [if_pos ha, trail_run_none s' a ha hpairs hlast]
        rfl
      · rw [if_neg (by simpa using ha)]
    rw [substB_emit hnone, ih (a == '\n') (pairsOK_tail hpairs) (lastOK_tail hlast)]

theorem dropWhile_eq_self {p : Char → Bool} : ∀ {s : List Char},
    (match s.head? with | some c => p c = false | none => True) →
    s.dropWhile p = s := by
  intro s h
  cases s with
  | nil => rfl
  | cons a t =>
    simp only [List.head?_cons] at h
    rw [List.dropWhile_cons, h]
    simp

theorem head?_rev : ∀ (l : List Char), l.reverse.head? = l.getLast? := by
  intro l
  induction l with
  | nil => rfl
  | cons a t ih =>
    rw [List.reverse_cons]
    cases ht : t.reverse with
    | nil =>
      have ht' : t = [] := by simpa using congrArg List.reverse ht
      subst ht'
      rfl
    | cons x xs =>
      rw [List.cons_append, List.head?_cons]
      cases t with
      | nil => simp at ht
      | cons b t2 =>
        rw [List.getLast?_cons_cons, ← ih, ht, List.head?_cons]

/-- `strip()` is the identity when neither end is whitespace. -/
theorem stripBoth_id (s : List Char) (hhead : headOK s = true) (hlast : lastOK s = true) :
    stripBoth s = s := by
  have h1 : s.dropWhile isSpaceChar = s := by
    apply dropWhile_eq_self
    rw [headOK] at hhead
    cases hh : s.head? with
    | none => trivial
    | some c => rw [hh] at hhead; simpa using hhead
  have h2 : s.reverse.dropWhile isSpaceChar = s.reverse := by
    apply dropWhile_eq_self
    rw [head?_rev]
    rw [lastOK] at hlast
    cases hh : s.getLast? with
    | none => trivial
    | some c => rw [hh] at hlast; simpa using hlast
  rw [stripBoth, h1, h2, List.reverse_reverse]

theorem docclassSub_noBS (s : List Char) (h : ∀ a ∈ s, a ≠ '\\') : docclassSub s = s := by
  rw [docclassSub]
  exact subst_id_headLit '\\' (by rfl) s h

theorem beginDocSub_noBS (s : List Char) (h : ∀ a ∈ s, a ≠ '\\') : beginDocSub s = s := by
  rw [beginDocSub]
  exact subst_id_headLit '\\' (by rfl) s h

theorem endDocSub_noBS (s : List Char) (h : ∀ a ∈ s, a ≠ '\\') : endDocSub s = s := by
  rw [endDocSub]
  exact subst_id_headLit '\\' (by rfl) s h

theorem myCoverSub_noBS (s : List Char) (h : ∀ a ∈ s, a ≠ '\\') : myCoverSub s = s := by
  rw [myCoverSub]
  exact subst_id_headLit '\\' (by rfl) s h

theorem myChapterCoverSub_noBS (s : List Char) (h : ∀ a ∈ s, a ≠ '\\') : myChapterCoverSub s = s := by
  rw [myChapterCoverSub]
  exact subst_id_headLit '\\' (by rfl) s h

theorem newpageSub_noBS (s : List Char) (h : ∀ a ∈ s, a ≠ '\\') : newpageSub s = s := by
  rw [newpageSub]
  exact subst_id_headLit '\\' (by rfl) s h

theorem labelSub_noBS (s : List Char) (h : ∀ a ∈ s, a ≠ '\\') : labelSub s = s := by
  rw [labelSub]
  exact subst_id_headLit '\\' (by rfl) s h

theorem citeSub_noBS (s : List Char) (h : ∀ a ∈ s, a ≠ '\\') : citeSub s = s := by
  rw [citeSub]
  exact subst_id_headLit '\\' (by rfl) s h

theorem crefCapSub_noBS (s : List Char) (h : ∀ a ∈ s, a ≠ '\\') : crefCapSub s = s := by
  rw [crefCapSub]
  exact subst_id_headLit '\\' (by rfl) s h

theorem crefSub_noBS (s : List Char) (h : ∀ a ∈ s, a ≠ '\\') : crefSub s = s := by
  rw [crefSub]
  exact subst_id_headLit '\\' (by rfl) s h

theorem equationSub_noBS (s : List Char) (h : ∀ a ∈ s, a ≠ '\\') : equationSub s = s := by
  rw [equationSub]
  exact subst_id_headLit '\\' (by rfl) s h

theorem alignSub_noBS (s : List Char) (h : ∀ a ∈ s, a ≠ '\\') : alignSub s = s := by
  rw [alignSub]
  exact subst_id_headLit '\\' (by rfl) s h

theorem splitSub_noBS (s : List Char) (h : ∀ a ∈ s, a ≠ '\\') : splitSub s = s := by
  rw [splitSub]
  exact subst_id_headLit '\\' (by rfl) s h

theorem textitSub_noBS (s : List Char) (h : ∀ a ∈ s, a ≠ '\\') : textitSub s = s := by
  rw [textitSub]
  exact subst_id_headLit '\\' (by rfl) s h

theorem textbfSub_noBS (s : List Char) (h : ∀ a ∈ s, a ≠ '\\') : textbfSub s = s := by
  rw [textbfSub]
  exact subst_id_headLit '\\' (by rfl) s h

theorem textSub_noBS (s : List Char) (h : ∀ a ∈ s, a ≠ '\\') : textSub s = s := by
  rw [textSub]
  exact subst_id_headLit '\\' (by rfl) s h

theorem figureSub_noBS (s : List Char) (h : ∀ a ∈ s, a ≠ '\\') : figureSub s = s := by
  rw [figureSub]
  exact subst_id_headLit '\\' (by rfl) s h

theorem tableSub_noBS (s : List Char) (h : ∀ a ∈ s, a ≠ '\\') : tableSub s = s := by
  rw [tableSub]
  exact subst_id_headLit '\\' (by rfl) s h

theorem tabularySub_noBS (s : List Char) (h : ∀ a ∈ s, a ≠ '\\') : tabularySub s = s := by
  rw [tabularySub]
  exact subst_id_headLit '\\' (by rfl) s h

theorem centeringSub_noBS (s : List Char) (h : ∀ a ∈ s, a ≠ '\\') : centeringSub s = s := by
  rw [centeringSub]
  exact subst_id_headLit '\\' (by rfl) s h

theorem includegraphicsSub_noBS (s : List Char) (h : ∀ a ∈ s, a ≠ '\\') : includegraphicsSub s = s := by
  rw [includegraphicsSub]
  exact subst_id_headLit '\\' (by rfl) s h

theorem captionSub_noBS (s : List Char) (h : ∀ a ∈ s, a ≠ '\\') : captionSub s = s := by
  rw [captionSub]
  exact subst_id_headLit '\\' (by rfl) s h

theorem topruleSub_noBS (s : List Char) (h : ∀ a ∈ s, a ≠ '\\') : topruleSub s = s := by
  rw [topruleSub]
  exact subst_id_headLit '\\' (by rfl) s h

theorem midruleSub_noBS (s : List Char) (h : ∀ a ∈ s, a ≠ '\\') : midruleSub s = s := by
  rw [midruleSub]
  exact subst_id_headLit '\\' (by rfl) s h

theorem bottomruleSub_noBS (s : List Char) (h : ∀ a ∈ s, a ≠ '\\') : bottomruleSub s = s := by
  rw [bottomruleSub]
  exact subst_id_headLit '\\' (by rfl) s h

theorem tensorSub_noBS (s : List Char) (h : ∀ a ∈ s, a ≠ '\\') : tensorSub s = s := by
  rw [tensorSub]
  exact subst_id_headLit '\\' (by rfl) s h

theorem mathbfSub_noBS (s : List Char) (h : ∀ a ∈ s, a ≠ '\\') : mathbfSub s = s := by
  rw [mathbfSub]
  exact subst_id_headLit '\\' (by rfl) s h

theorem vecSub_noBS (s : List Char) (h : ∀ a ∈ s, a ≠ '\\') : vecSub s = s := by
  rw [vecSub]
  exact subst_id_headLit '\\' (by rfl) s h

theorem catchBraceSub_noBS (s : List Char) (h : ∀ a ∈ s, a ≠ '\\') : catchBraceSub s = s := by
  rw [catchBraceSub]
  exact subst_id_headLit '\\' (by rfl) s h

theorem catchBareSub_noBS (s : List Char) (h : ∀ a ∈ s, a ≠ '\\') : catchBareSub s = s := by
  rw [catchBareSub]
  exact subst_id_headLit '\\' (by rfl) s h

theorem commentSub_noPct (s : List Char) (h : ∀ a ∈ s, a ≠ '%') : commentSub s = s := by
  rw [commentSub]
  exact subst_id_headLit '%' (by rfl) s h

theorem inlineMathSub_noDollar (s : List Char) (h : ∀ a ∈ s, a ≠ '$') :
    inlineMathSub s = s := by
  rw [inlineMathSub]
  exact subst_id_headLit '$' (by rfl) s h

theorem tildeCiteSub_noBS (s : List Char) (h : ∀ a ∈ s, a ≠ '\\') :
    tildeCiteSub s = s := by
  rw [tildeCiteSub, subst_eq_substB]
  exact substB_id_secondLit s true h

theorem blankLinesSub_wsn (s : List Char) (hpairs : pairsOK s = true)
    (hlast : lastOK s = true) : blankLinesSub s = s := by
  rw [blankLinesSub, subst_eq_substB]
  exact substB_id_blank s true hpairs hlast

theorem leadingWsSub_wsn (s : List Char) (hpairs : pairsOK s = true)
    (hlast : lastOK s = true) (hhead : headOK s = true) : leadingWsSub s = s := by
  rw [leadingWsSub, subst_eq_substB]
  exact substB_id_leadWs s true hpairs hlast (fun _ => hhead)

theorem trailingWsSub_wsn (s : List Char) (hpairs : pairsOK s = true)
    (hlast : lastOK s = true) : trailingWsSub s = s := by
  rw [trailingWsSub, subst_eq_substB]
  exact substB_id_trailWs s true hpairs hlast

/-- On a text with no backslash, no percent sign, no dollar sign, and
    whitespace-normal shape (no whitespace adjacent to a newline, and
    non-whitespace first and last characters), every stage of the pipeline is
    the identity. -/
theorem processLatex_fixed (s : List Char)
    (hB : ∀ a ∈ s, a ≠ '\\') (hP : ∀ a ∈ s, a ≠ '%') (hD : ∀ a ∈ s, a ≠ '$')
    (hpairs : pairsOK s = true) (hhead : headOK s = true) (hlast : lastOK s = true) :
    processLatex s = s := by
  show stripBoth (catchBareSub (catchBraceSub (trailingWsSub (leadingWsSub (blankLinesSub (vecSub (mathbfSub (tensorSub (bottomruleSub (midruleSub (topruleSub (captionSub (includegraphicsSub (centeringSub (tabularySub (tableSub (figureSub (textSub (textbfSub (textitSub (inlineMathSub (splitSub (alignSub (equationSub (crefSub (crefCapSub (tildeCiteSub (citeSub (labelSub (subsubsectionSub (subsubsectionLabelSub (subsectionSub (subsectionLabelSub (sectionSub (sectionLabelSub (newpageSub (myChapterCoverSub (myCoverSub (commentSub (endDocSub (beginDocSub (docclassSub (s))))))))))))))))))))))))))))))))))))))))))) = s
  rw [docclassSub_noBS s hB,
    beginDocSub_noBS s hB,
    endDocSub_noBS s hB,
    commentSub_noPct s hP,
    myCoverSub_noBS s hB,
    myChapterCoverSub_noBS s hB,
    newpageSub_noBS s hB,
    sectionLabelSub_noBS s hB,
    sectionSub_noBS s hB,
    subsectionLabelSub_noBS s hB,
    subsectionSub_noBS s hB,
    subsubsectionLabelSub_noBS s hB,
    subsubsectionSub_noBS s hB,
    labelSub_noBS s hB,
    citeSub_noBS s hB,
    tildeCiteSub_noBS s hB,
    crefCapSub_noBS s hB,
    crefSub_noBS s hB,
    equationSub_noBS s hB,
    alignSub_noBS s hB,
    splitSub_noBS s hB,
    inlineMathSub_noDollar s hD,
    textitSub_noBS s hB,
    textbfSub_noBS s hB,
    textSub_noBS s hB,
    figureSub_noBS s hB,
    tableSub_noBS s hB,
    tabularySub_noBS s hB,
    centeringSub_noBS s hB,
    includegraphicsSub_noBS s hB,
    captionSub_noBS s hB,
    topruleSub_noBS s hB,
    midruleSub_noBS s hB,
    bottomruleSub_noBS s hB,
    tensorSub_noBS s hB,
    mathbfSub_noBS s hB,
    vecSub_noBS s hB,
    blankLinesSub_wsn s hpairs hlast,
    leadingWsSub_wsn s hpairs hlast hhead,
    trailingWsSub_wsn s hpairs hlast,
    catchBraceSub_noBS s hB,
    catchBareSub_noBS s hB,
    stripBoth_id s hhead hlast]

/-- C9 (amended): a second pass of the conversion is the identity on a first
    pass's output, provided that output contains no backslash, no `%`, no `$`,
    and is whitespace-normal (no whitespace character adjacent to a newline,
    and no leading or trailing whitespace).  The whitespace conditions are
    necessary: the original claim fails on outputs with no backslash at all
    when the catch-all exposed fresh leading whitespace
    (see the counterexample). -/
theorem claim9_idempotent_on_clean (t : List Char)
    (hB : ∀ a ∈ processLatex t, a ≠ '\\') (hP : ∀ a ∈ processLatex t, a ≠ '%')
    (hD : ∀ a ∈ processLatex t, a ≠ '$')
    (hpairs : pairsOK (processLatex t) = true)
    (hhead : headOK (processLatex t) = true)
    (hlast : lastOK (processLatex t) = true) :
    processLatex (processLatex t) = processLatex t :=
  processLatex_fixed (processLatex t) hB hP hD hpairs hhead hlast

/-- Witness for C9 on the scenario-1 document, whose conversion
    `# Intro\nHello world.` satisfies all the conditions. -/
theorem claim9_idempotent_on_clean_witness :
    processLatex (processLatex
        ['\\','s','e','c','t','i','o','n','{','I','n','t','r','o','}',
         '\\','l','a','b','e','l','{','s','e','c',':','i','n','t','r','o','}','\n',
         'H','e','l','l','o',' ','\\','t','e','x','t','b','f','{','w','o','r','l','d','}','.']) =
      processLatex
        ['\\','s','e','c','t','i','o','n','{','I','n','t','r','o','}',
         '\\','l','a','b','e','l','{','s','e','c',':','i','n','t','r','o','}','\n',
         'H','e','l','l','o',' ','\\','t','e','x','t','b','f','{','w','o','r','l','d','}','.'] :=
  claim9_idempotent_on_clean _ (by decide) (by decide) (by decide) (by decide) (by decide)
    (by decide)

end LatexMd
